import Mathlib

/-!
Verification of `export-payment`

Shallow embedding of `export-payment/export-payment.go`.

The program is a short pipeline: `NewDateRange` parses a `MM/YYYY` selector with
`time.Parse`, `fetchCharges` turns the range into two creation-time filters, and
`exportCharges` projects every charge onto a 16-column CSV row that goes through
a `csv.Writer` (a `bufio.Writer` of 4096 bytes in front of `os.Stdout`).

The Go standard library and the Stripe client are not part of the repository. The parts
of `time`, `fmt`, `strconv`, `bufio` and `encoding/csv` the program runs through are
embedded here after the library sources (the calendar arithmetic of `time` is the one of
the releases up to Go 1.22); of the Stripe client only the shape of a charge and the
meaning of a `created` filter are used.

What lies outside the program - the wall clock, the health of `os.Stdout`, the text of
`spew.Dump` - is collected in `Env`.
-/

namespace ExportPayment

deriving instance DecidableEq for Except

/-! ## Go strings -/

/-- A Go string is a sequence of bytes; a byte is a natural number below 256. -/
abbrev GoString := List Nat

/-- The bytes (UTF-8) of a string literal. -/
def str (s : String) : GoString :=
  (s.toList.flatMap String.utf8EncodeChar).map UInt8.toNat

/-! ## Package `time` (UTC only)

`time.Time` is kept as the number of seconds since the Unix epoch, which is the
only observable the program uses (`Unix()`); the sub-second part is zero for
every parsed time and is dropped by `Unix()` for `time.Now()`. -/

/-- A `time.Time`, as the value `Unix()` returns. -/
structure Time where
  unix : Int
  deriving DecidableEq, Repr

/-- Conversion `uint64(x)` of a Go integer. -/
def u64 (x : Int) : Int := x % 18446744073709551616

/-- Conversion `int64(x)` of a Go integer. -/
def i64 (x : Int) : Int := (x + 9223372036854775808) % 18446744073709551616 - 9223372036854775808

def secondsPerMinute : Int := 60
def secondsPerHour : Int := 60 * 60
def secondsPerDay : Int := 24 * 60 * 60
def daysPer400Years : Int := 365 * 400 + 97
def daysPer100Years : Int := 365 * 100 + 24
def daysPer4Years : Int := 365 * 4 + 1

/-- The year of the zero `abs` instant; `absoluteZeroYear` in `time.go`. -/
def absoluteZeroYear : Int := -292277022399

/-- The constant `unixToInternal`: seconds from year 1 to 1970. -/
def unixToInternal : Int := (1969 * 365 + 1969 / 4 - 1969 / 100 + 1969 / 400) * secondsPerDay

def internalToUnix : Int := -unixToInternal

/-- The constant `absoluteToInternal`, which Go writes
`(absoluteZeroYear - internalYear) * 365.2425 * secondsPerDay`. -/
def absoluteToInternal : Int := (absoluteZeroYear - 1) * 31556952

def internalToAbsolute : Int := -absoluteToInternal

/-- The table `daysBefore`: days in a non-leap year before month `m+1`. -/
def daysBefore : List Int :=
  [0, 31, 59, 90, 120, 151, 181, 212, 243, 273, 304, 334, 365]

/-- Lookup `daysBefore[i]`. -/
def daysBeforeAt (i : Int) : Int := daysBefore.getD i.toNat 0

def isLeap (year : Int) : Bool :=
  year % 4 == 0 && (year % 100 != 0 || year % 400 == 0)

/-- Go's `daysIn(m, year)`. -/
def daysIn (m year : Int) : Int :=
  if m == 2 && isLeap year then 29
  else daysBeforeAt m - daysBeforeAt (m - 1)

/-- Go's `norm(hi, lo, base)`: bring `lo` into `[0, base)`, carrying into `hi`.
The two divisions are of non-negative numbers, as in the Go code. -/
def norm (hi lo base : Int) : Int × Int :=
  let (hi, lo) :=
    if lo < 0 then
      let n := (-lo - 1) / base + 1
      (hi - n, lo + n * base)
    else (hi, lo)
  if lo ≥ base then
    let n := lo / base
    (hi + n, lo - n * base)
  else (hi, lo)

/-- Go's `daysSinceEpoch(year)`: days from the absolute epoch to January 1 of `year`. -/
def daysSinceEpoch (year : Int) : Int :=
  let y := u64 (year - absoluteZeroYear)
  -- 400-year cycles
  let n := y / 400
  let y := y - 400 * n
  let d := daysPer400Years * n
  -- 100-year cycles
  let n := y / 100
  let y := y - 100 * n
  let d := d + daysPer100Years * n
  -- 4-year cycles
  let n := y / 4
  let y := y - 4 * n
  let d := d + daysPer4Years * n
  -- remaining non-leap years
  d + 365 * y

/-- Go's `time.Date(year, month, day, hour, min, sec, 0, time.UTC)`. -/
def Date (year month day hour min sec : Int) : Time :=
  -- Normalize month, overflowing into year.
  let (year, m) := norm year (month - 1) 12
  let month := m + 1
  -- Normalize sec, min, hour, overflowing into day (nsec is 0).
  let (min, sec) := norm min sec 60
  let (hour, min) := norm hour min 60
  let (day, hour) := norm day hour 24
  let d := daysSinceEpoch year
  let d := d + daysBeforeAt (month - 1)
  let d := if isLeap year && month ≥ 3 then d + 1 else d
  let d := d + (day - 1)
  let abs := u64 (d * secondsPerDay)
  let abs := u64 (abs + (hour * secondsPerHour + min * secondsPerMinute + sec))
  ⟨i64 (i64 abs + (absoluteToInternal + internalToUnix))⟩

/-- Go's `t.abs()` for a time in UTC. -/
def Time.abs (t : Time) : Int := u64 (t.unix + (unixToInternal + internalToAbsolute))

/-- Go's `absDate(abs, true)`, returning `(year, month, day)`. -/
def absDate (abs : Int) : Int × Int × Int :=
  let d := abs / secondsPerDay
  -- 400-year cycles
  let n := d / daysPer400Years
  let y := 400 * n
  let d := d - daysPer400Years * n
  -- 100-year cycles; the last one has an extra leap year: turn 4 into 3
  let n := d / daysPer100Years
  let n := n - n / 4
  let y := y + 100 * n
  let d := d - daysPer100Years * n
  -- 4-year cycles
  let n := d / daysPer4Years
  let y := y + 4 * n
  let d := d - daysPer4Years * n
  -- years within a 4-year cycle
  let n := d / 365
  let n := n - n / 4
  let y := y + n
  let d := d - 365 * n
  let year := i64 (i64 y + absoluteZeroYear)
  let day := d
  if isLeap year && day == 31 + 29 - 1 then (year, 2, 29)
  else
    let day := if isLeap year && day > 31 + 29 - 1 then day - 1 else day
    -- Estimate month on the assumption that every month has 31 days.
    let month := day / 31
    let e := daysBeforeAt (month + 1)
    let (month, begin) := if day ≥ e then (month + 1, e) else (month, daysBeforeAt month)
    (year, month + 1, day - begin + 1)

/-- Go's `t.Date()` for a time in UTC. -/
def Time.date (t : Time) : Int × Int × Int := absDate t.abs

/-- Go's `t.Clock()` for a time in UTC. -/
def Time.clock (t : Time) : Int × Int × Int :=
  let sec := t.abs % secondsPerDay
  let hour := sec / secondsPerHour
  let sec := sec - hour * secondsPerHour
  let min := sec / secondsPerMinute
  (hour, min, sec - min * secondsPerMinute)

/-- Go's `t.AddDate(years, months, days)`. -/
def Time.AddDate (t : Time) (years months days : Int) : Time :=
  let (year, month, day) := t.date
  let (hour, min, sec) := t.clock
  Date (year + years) (month + months) (day + days) hour min sec

/-- Go's `t.Unix()`. -/
def Time.Unix (t : Time) : Int := t.unix

/-! ### `time.Parse` with the layout `monthSelect`

`nextStdChunk` cuts the layout `"01/2006"` into the element `01` (`stdZeroMonth`, empty
prefix), the element `2006` (`stdLongYear`, prefix `"/"`) and the end of the layout
(empty prefix, no element). `parseMonthSelect` is the loop of `time.Parse` run over
these three chunks. -/

/-- The layout constant of the program. -/
def monthSelect : GoString := str "01/2006"

/-- The ways `time.Parse` fails, after the `Message` of the `*time.ParseError`. Which of
them is reported for a month that is not made of two digits has changed between releases
of Go (`month out of range` in the older ones, the empty message now); no statement below
depends on it, only on whether there is an error. -/
inductive ParseError where
  /-- the value does not match the layout element (empty message) -/
  | bad
  /-- The message `": month out of range"` -/
  | monthOutOfRange
  /-- The message `": day out of range"` -/
  | dayOutOfRange
  /-- The message `": extra text: ..."` -/
  | extraText
  deriving DecidableEq, Repr

/-- Go's `isDigit(s, i)`: is there a decimal digit at index `i`? -/
def isDigit (s : GoString) (i : Nat) : Bool :=
  match s.get? i with
  | none => false
  | some c => 48 ≤ c && c ≤ 57

/-- Go's `getnum(s, fixed)`: a one or two digit number; `none` is `errBad`. -/
def getnum (s : GoString) (fixed : Bool) : Option (Int × GoString) :=
  if !isDigit s 0 then none
  else if !isDigit s 1 then
    if fixed then none
    else some ((s.getD 0 0 : Int) - 48, s.drop 1)
  else some (((s.getD 0 0 : Int) - 48) * 10 + ((s.getD 1 0 : Int) - 48), s.drop 2)

/-- Go's `cutspace`. -/
def cutspace (s : GoString) : GoString := s.dropWhile (· == 32)

/-- Go's `skip(value, prefix)`: remove `prefix` from `value`, a run of spaces in the prefix
matching a run of spaces in the value; `none` is `errBad`. The fuel is the length of the
prefix, which shrinks in every round of the loop. -/
def skipLoop : Nat → GoString → GoString → Option GoString
  | _, value, [] => some value
  | 0, _, _ :: _ => none
  | fuel + 1, value, p :: pre =>
    if p == 32 then
      match value with
      | v :: _ => if v != 32 then none else skipLoop fuel (cutspace value) (cutspace (p :: pre))
      | [] => skipLoop fuel (cutspace value) (cutspace (p :: pre))
    else
      match value with
      | [] => none
      | v :: rest => if v != p then none else skipLoop fuel rest pre

def skip (value pre : GoString) : Option GoString := skipLoop pre.length value pre

/-- Go's `leadingInt(s)`: the leading run of digits as an `int64`, and the rest;
`none` is `errLeadingInt` (overflow). -/
def leadingInt : GoString → Int → Option (Int × GoString)
  | [], x => some (x, [])
  | c :: rest, x =>
    if c < 48 || c > 57 then some (x, c :: rest)
    else if x > (9223372036854775807 : Int) / 10 then none
    else
      let x := i64 (x * 10 + (c : Int) - 48)
      if x < 0 then none else leadingInt rest x

/-- Go's `atoi(s)`; `none` is `atoiError`. -/
def atoi (s : GoString) : Option Int :=
  let (neg, s) :=
    match s with
    | c :: rest => if c == 45 || c == 43 then (c == 45, rest) else (false, s)
    | [] => (false, s)
  match leadingInt s 0 with
  | none => none
  | some (q, rem) => if rem ≠ [] then none else some (if neg then -q else q)

/-- Go's `time.Parse(monthSelect, value)`. -/
def parseMonthSelect (avalue : GoString) : Except ParseError Time :=
  -- time being constructed: month = 1, day = 1, hour = min = sec = nsec = 0, no zone
  let day : Int := 1
  -- element `01`, prefix ""
  match skip avalue [] with
  | none => .error .bad
  | some value =>
  match getnum value true with
  | none => .error .bad
  | some (month, value) =>
  if month ≤ 0 || 12 < month then .error .monthOutOfRange else
  -- element `2006`, prefix "/"
  match skip value (str "/") with
  | none => .error .bad
  | some value =>
  if value.length < 4 || !isDigit value 0 then .error .bad else
  match atoi (value.take 4) with
  | none => .error .bad
  | some year =>
  let value := value.drop 4
  -- end of the layout, prefix ""
  match skip value [] with
  | none => .error .bad
  | some value =>
  if value.length ≠ 0 then .error .extraText else
  -- validate the day of the month
  if day < 1 || day > daysIn month year then .error .dayOutOfRange else
  .ok (Date year month day 0 0 0)

/-! ## The program: `DateRange` -/

structure DateRange where
  Begin : Time
  End : Time
  deriving DecidableEq, Repr

/-- The function `NewDateRange(begin)`: Go's `(nil, err)` is `.error err` and
`(&DateRange, nil)` is `.ok`. -/
def NewDateRange (begin : GoString) : Except ParseError DateRange :=
  match parseMonthSelect begin with
  | .error err => .error err
  | .ok d => .ok { Begin := d, End := d.AddDate 0 1 0 }

def DateRange.ToUnixTS (d : DateRange) : Int × Int := (d.Begin.Unix, d.End.Unix)

/-! ## Package `fmt` and `strconv`: decimal integers -/

/-- The digit loop of `fmtInteger` and `formatBits`: the decimal digits of `u`, least
significant first, put in front of `acc`. A `uint64` has at most 20 digits, the fuel. -/
def fmtDigits : Nat → Nat → GoString → GoString
  | 0, _, acc => acc
  | fuel + 1, u, acc =>
    if u ≥ 10 then fmtDigits fuel (u / 10) ((48 + (u - u / 10 * 10)) :: acc)
    else (48 + u) :: acc

/-- Go's `fmtInteger` for the verb `%d` of a signed integer: `wid` is the width, if one is
given, and `zero` the flag `0`. -/
def fmtInteger (x : Int) (wid : Option Nat) (zero : Bool) : GoString :=
  let negative := x < 0
  let u := x.natAbs
  -- `%03d`: leading zeros up to the width, with room left for the sign
  let prec : Nat :=
    match wid with
    | some w => if zero then (if negative then w - 1 else w) else 0
    | none => 0
  let digits := fmtDigits 20 u []
  let digits := List.replicate (prec - digits.length) 48 ++ digits
  let digits := if negative then 45 :: digits else digits
  -- `f.pad`, with spaces: the zeros are already there
  List.replicate ((wid.getD 0) - digits.length) 32 ++ digits

/-- The text `fmt.Sprintf("%d", x)`. -/
def sprintD (x : Int) : GoString := fmtInteger x none false

/-- The text `fmt.Sprintf("%02d/%d", month, year)`. -/
def sprintMonthYear (month year : Int) : GoString :=
  fmtInteger month (some 2) true ++ str "/" ++ fmtInteger year none false

/-- The text `strconv.FormatInt(i, 10)`. -/
def FormatInt (i : Int) : GoString :=
  if i < 0 then 45 :: fmtDigits 20 i.natAbs [] else fmtDigits 20 i.natAbs []

/-! ## The charge record

The types `stripe.Charge`, `stripe.PaymentSource`, `stripe.Card`, `stripe.Invoice` and
`stripe.ChargeOutcome` belong to the Stripe client library. -/

/-- Modelled from the spec: the declaration of `stripe.Card`, of which the program reads the
brand, the last four digits and the expiry month and year (integers). -/
structure Card where
  Month : Int
  Year : Int
  Brand : GoString
  LastFour : GoString
  deriving DecidableEq, Repr

/-- Modelled from the spec: the declaration of `stripe.PaymentSource`; the card sub-record
is optional (`Card == nil`), `Display` is the text its method `Display()` returns and
`Type_` its field `Type`. -/
structure PaymentSource where
  Type_ : GoString
  Card : Option Card
  Display : GoString
  deriving DecidableEq, Repr

/-- Modelled from the spec: the declaration of `stripe.Invoice`, read for its identifier. -/
structure Invoice where
  ID : GoString
  deriving DecidableEq, Repr

/-- Modelled from the spec: the declaration of `stripe.ChargeOutcome`. -/
structure ChargeOutcome where
  RiskLevel : GoString
  NetworkStatus : GoString
  deriving DecidableEq, Repr

/-- Modelled from the spec: the declaration of `stripe.Charge`: identifier, status, amount,
currency, creation time, optional invoice (`Invoice == nil`), payment source, failure
message and code, outcome. The payment source and the outcome are always there: the
program reads `c.Source.Card` and `c.Outcome.RiskLevel` without a check. -/
structure Charge where
  ID : GoString
  Status : GoString
  Amount : Int
  Invoice : Option Invoice
  Currency : GoString
  Created : Int
  FailMsg : GoString
  FailCode : GoString
  Source : PaymentSource
  Outcome : ChargeOutcome
  deriving DecidableEq, Repr

/-! ## `fetchCharges`: the creation-time filters -/

/-- One `params.Filters.AddFilter(key, op, value)`. -/
structure Filter where
  key : GoString
  op : GoString
  value : GoString
  deriving DecidableEq, Repr

/-- The filters `fetchCharges` puts on the list request. -/
def fetchChargesFilters (dr : DateRange) : List Filter :=
  let (beginTs, endTs) := dr.ToUnixTS
  [⟨str "created", str "gt", FormatInt beginTs⟩, ⟨str "created", str "lt", FormatInt endTs⟩]

/-- The function `fetchCharges(dr)`: every charge the list request yields, in the order of
the pages; the Stripe client (`scli.Charges.List` and its iterator) is the parameter
`list`. -/
def fetchCharges (list : List Filter → List Charge) (dr : DateRange) : List Charge :=
  (list (fetchChargesFilters dr)).foldl (fun charges c => charges ++ [c]) []

/-- Reading a run of decimal digits. -/
def parseDigits (ds : GoString) : Option Int :=
  if ds = [] ∨ ds.any (fun c => c < 48 || c > 57) then none
  else some (ds.foldl (fun (a : Int) (c : Nat) => a * 10 + ((c : Int) - 48)) 0)

/-- Reading a decimal integer: the value of a filter on the side of the API. -/
def parseDecimal (s : GoString) : Option Int :=
  match s with
  | 45 :: ds => (parseDigits ds).map (fun v => -v)
  | _ => parseDigits s

/-- The meaning the Stripe API gives to a filter on `created`: `gt`, `gte`, `lt` and `lte`
compare the creation time of the charge, in epoch seconds, with the value. -/
def Filter.admits (f : Filter) (created : Int) : Bool :=
  if f.key = str "created" then
    match parseDecimal f.value with
    | none => false
    | some v =>
      if f.op = str "gt" then decide (created > v)
      else if f.op = str "gte" then decide (created ≥ v)
      else if f.op = str "lt" then decide (created < v)
      else if f.op = str "lte" then decide (created ≤ v)
      else false
  else true

/-- A charge created at `created` passes every filter of the request. -/
def selected (dr : DateRange) (created : Int) : Bool :=
  (fetchChargesFilters dr).all (fun f => f.admits created)

/-! ## Packages `bufio` and `encoding/csv`

`csv.NewWriter(os.Stdout)` is a `bufio.Writer` of `defaultBufSize` bytes in front of
`os.Stdout`. `Writer` keeps the three things that can be observed: the bytes waiting in the
buffer, the sticky error of the `bufio.Writer`, and the bytes `os.Stdout` has accepted.
Whether `os.Stdout` works at the time of a call is the argument `fails`. -/

def defaultBufSize : Nat := 4096

structure Writer where
  /-- the pending bytes `b.buf[0:b.n]` -/
  buf : GoString
  /-- whether `b.err != nil` -/
  err : Bool
  /-- the bytes `os.Stdout` has accepted -/
  out : GoString
  deriving DecidableEq, Repr

/-- The writer `csv.NewWriter(os.Stdout)`, with nothing on the stream yet. -/
def NewWriter : Writer := { buf := [], err := false, out := [] }

/-- Go's `b.Available()`. -/
def Writer.Available (b : Writer) : Nat := defaultBufSize - b.buf.length

/-- Go's `os.Stdout.Write(p)`: a stream that fails accepts nothing and returns an error, a
stream that works accepts all of `p`. Returns the stream, `n` and whether `err != nil`. -/
def stdoutWrite (fails : Bool) (out p : GoString) : GoString × Nat × Bool :=
  if fails then (out, 0, true) else (out ++ p, p.length, false)

/-- Go's `bufio.Writer.Flush`, which `csv.Writer.Flush` calls, dropping its result. -/
def Writer.Flush (fails : Bool) (b : Writer) : Writer :=
  if b.err then b
  else if b.buf.length = 0 then b
  else
    let (out, n, err) := stdoutWrite fails b.out b.buf
    -- a short write without an error is `io.ErrShortWrite`
    let err := err || decide (n < b.buf.length)
    if err then { buf := b.buf.drop n, err := true, out := out }
    else { buf := [], err := false, out := out }

/-- The loop of `bufio.Writer.WriteString(s)`: fill the buffer and flush it as long as `s`
does not fit. Returns the writer and whether the call returns an error. Every round but the
first takes bytes from `s`, so that `len(s) + 2` rounds are never all used. -/
def Writer.writeLoop (fails : Bool) : Nat → Writer → GoString → Writer × Bool
  | 0, b, _ => (b, true)
  | fuel + 1, b, s =>
    if s.length > b.Available && !b.err then
      let n := min b.Available s.length
      let b := { b with buf := b.buf ++ s.take n }
      Writer.writeLoop fails fuel (b.Flush fails) (s.drop n)
    else if b.err then (b, true)
    else ({ b with buf := b.buf ++ s }, false)

/-- Go's `bufio.Writer.WriteString(s)`. -/
def Writer.WriteString (fails : Bool) (b : Writer) (s : GoString) : Writer × Bool :=
  Writer.writeLoop fails (s.length + 2) b s

/-- Does the field start with a rune for which `unicode.IsSpace` holds? The white space of
Unicode, in UTF-8. -/
def firstRuneIsSpace (field : GoString) : Bool :=
  match field with
  | 9 :: _ | 10 :: _ | 11 :: _ | 12 :: _ | 13 :: _ | 32 :: _ => true
  | 194 :: 133 :: _ | 194 :: 160 :: _ => true
  | 225 :: 154 :: 128 :: _ => true
  | 226 :: 128 :: c :: _ => (128 ≤ c && c ≤ 138) || c == 168 || c == 169 || c == 175
  | 226 :: 129 :: 159 :: _ => true
  | 227 :: 128 :: 128 :: _ => true
  | _ => false

/-- Go's `w.fieldNeedsQuotes(field)` with the comma `','`. -/
def fieldNeedsQuotes (field : GoString) : Bool :=
  if field = [] then false
  else if field = str "\\." || field.contains 44
      || field.any (fun c => c == 34 || c == 13 || c == 10) then true
  else firstRuneIsSpace field

/-- The CSV text of one field (`UseCRLF` is off): the field itself, or the field between
quotes with every quote doubled. -/
def encodeField (field : GoString) : GoString :=
  if fieldNeedsQuotes field then
    34 :: (field.flatMap (fun c => if c == 34 then [34, 34] else [c])) ++ [34]
  else field

/-- The fields of a record with a comma before every field but the first. -/
def encodeFields : List GoString → GoString
  | [] => []
  | [f] => encodeField f
  | f :: fs => encodeField f ++ 44 :: encodeFields fs

/-- The bytes of one record: the fields and a line feed. -/
def encodeRecord (record : List GoString) : GoString := encodeFields record ++ [10]

/-- The calls of `WriteString` on the `bufio.Writer`, one string after the other, up to the
first that returns an error: `if _, err := w.w.WriteString(s); err != nil { return err }`.
Returns the writer and whether an error is returned. -/
def Writer.writeAll (fails : Bool) : Writer → List GoString → Writer × Bool
  | b, [] => (b, false)
  | b, p :: ps =>
    match b.WriteString fails p with
    | (b, true) => (b, true)
    | (b, false) => Writer.writeAll fails b ps

/-- The strings `csv.Writer.Write` hands over inside the quotes of a field: the run up to the
next quote, carriage return or line feed (`strings.IndexAny`), then that character, a
quote doubled, and so on to the end of the field. `run` is the run read so far. -/
def quotedPieces : GoString → GoString → List GoString
  | run, [] => if run = [] then [] else [run]
  | run, c :: rest =>
    if c == 34 then run :: [34, 34] :: quotedPieces [] rest
    else if c == 13 || c == 10 then run :: [c] :: quotedPieces [] rest
    else quotedPieces (run ++ [c]) rest

/-- The strings `csv.Writer.Write` hands over for one field. -/
def fieldPieces (field : GoString) : List GoString :=
  if !fieldNeedsQuotes field then [field]
  else [34] :: quotedPieces [] field ++ [[34]]

/-- The strings `csv.Writer.Write` hands over for the fields from index `n` on: a comma
before every field but the first. -/
def recordPieces : Nat → List GoString → List GoString
  | _, [] => []
  | n, field :: rest =>
    (if n > 0 then [[44]] else []) ++ fieldPieces field ++ recordPieces (n + 1) rest

/-- Go's `csv.Writer.Write(record)`: the commas, the fields and the final line feed go to the
`bufio.Writer` one after the other, and the first error is returned. `WriteByte` and
`WriteRune` of a comma act on the `bufio.Writer` as `WriteString` of the one byte. -/
def Writer.Write (fails : Bool) (w : Writer) (record : List GoString) : Writer × Bool :=
  w.writeAll fails (recordPieces 0 record ++ [[10]])

/-! ## `exportCharges` -/

/-- What the run depends on outside the program. -/
structure Env where
  /-- The clock: `now k` is the result of `time.Now()` in the round of the loop for
  record `k` -/
  now : Nat → Time
  /-- The stream: `stdoutFails k` tells whether `os.Stdout` rejects the writes once `k` rows
  have been written and flushed -/
  stdoutFails : Nat → Bool
  /-- the text `spew.Dump` prints for the charges -/
  dump : List Charge → GoString

/-- The header row. -/
def header : List GoString :=
  [str "id", str "status", str "amount", str "invoice_num",
    str "currency", str "created_at", str "failure_message",
    str "failure_type", str "gateway", str "payment_type",
    str "cc_brand", str "cc_last_four", str "cc_expiry", str "payment_info",
    str "risk_level", str "outcome_network_status"]

/-- The row of one charge, the argument of `w.Write` in the loop of `exportCharges`; `none`
is `panic(err)` on a card expiry that does not parse. `now` is what `time.Now()` returns,
read only for a charge without a card. -/
def chargeRow (now : Time) (c : Charge) : Option (List GoString) :=
  let cardFields : Option (Time × GoString × GoString) :=
    match c.Source.Card with
    | some card =>
      match parseMonthSelect (sprintMonthYear card.Month card.Year) with
      | .error _ => none
      | .ok ccExpiry => some (ccExpiry, card.Brand, card.LastFour)
    | none => some (now, [], [])
  match cardFields with
  | none => none
  | some (ccExpiry, ccBrand, ccLastFour) =>
    let invId : GoString :=
      match c.Invoice with
      | none => []
      | some invoice => invoice.ID
    some [c.ID, c.Status, sprintD c.Amount, invId,
      c.Currency, sprintD c.Created, c.FailMsg,
      c.FailCode, str "stripe", c.Source.Type_,
      ccBrand, ccLastFour, sprintD ccExpiry.Unix, c.Source.Display,
      c.Outcome.RiskLevel, c.Outcome.NetworkStatus]

/-- How `exportCharges` ends. -/
inductive Exit where
  /-- The function ends with `return nil` -/
  | returnNil
  /-- The function ends with `return err` -/
  | returnErr
  /-- The function ends with `panic(err)` -/
  | panic
  deriving DecidableEq, Repr

/-- The loop over the charges: `k` is the index of the next record, `rows` counts the rows
handed to `w.Write`. -/
def exportLoop (env : Env) : Nat → List Charge → Writer → Nat → Exit × Writer × Nat
  | _, [], w, rows => (.returnNil, w, rows)
  | k, c :: rest, w, rows =>
    match chargeRow (env.now k) c with
    | none => (.panic, w, rows)
    | some row =>
      let (w, err) := w.Write (env.stdoutFails k) row
      let w := w.Flush (env.stdoutFails k)
      if err then (.returnErr, w, rows + 1)
      else exportLoop env (k + 1) rest w (rows + 1)

/-- The end of a run of `exportCharges`: how it ends, what `os.Stdout` has received, what is
left in the buffer of the `csv.Writer`, and how many rows were handed to `w.Write`. -/
structure Run where
  exit : Exit
  out : GoString
  buffered : GoString
  rows : Nat
  deriving DecidableEq, Repr

/-- The function `exportCharges(charges)`, the flag `exportCsv` being a parameter. -/
def exportCharges (env : Env) (exportCsv : Bool) (charges : List Charge) : Run :=
  if !exportCsv then
    -- spew.Dump(charges); return nil
    { exit := .returnNil, out := (stdoutWrite (env.stdoutFails 0) [] (env.dump charges)).1,
      buffered := [], rows := 0 }
  else
    let w := NewWriter
    -- header row
    let (w, _) := w.Write (env.stdoutFails 0) header
    let (exit, w, rows) := exportLoop env 0 charges w 0
    { exit := exit, out := w.out, buffered := w.buf, rows := rows }

/-! ## Definitions for the statements and the proofs

The form `MM/YYYY`, the pieces `absDate` and `parseMonthSelect` are cut into for the
proofs, the rows of a run, and sample records and environments. -/

/-- Year and day of the year that `absDate` finds, before the month is looked up. -/
def absYearDay (abs : Int) : Int × Int :=
  let d := abs / secondsPerDay
  let n := d / daysPer400Years
  let y := 400 * n
  let d := d - daysPer400Years * n
  let n := d / daysPer100Years
  let n := n - n / 4
  let y := y + 100 * n
  let d := d - daysPer100Years * n
  let n := d / daysPer4Years
  let y := y + 4 * n
  let d := d - daysPer4Years * n
  let n := d / 365
  let n := n - n / 4
  let y := y + n
  let d := d - 365 * n
  (i64 (i64 y + absoluteZeroYear), d)

/-- Month and day that `absDate` derives from the year and the day of the year. -/
def monthDay (year day : Int) : Int × Int × Int :=
  if isLeap year && day == 31 + 29 - 1 then (year, 2, 29)
  else
    let day := if isLeap year && day > 31 + 29 - 1 then day - 1 else day
    let month := day / 31
    let e := daysBeforeAt (month + 1)
    let (month, begin) := if day ≥ e then (month + 1, e) else (month, daysBeforeAt month)
    (year, month + 1, day - begin + 1)

/-- Day of the year, counted from 0, of the first of month `m`. -/
def firstYday (y m : Int) : Int :=
  daysBeforeAt (m - 1) + (if isLeap y = true ∧ 3 ≤ m then 1 else 0)

/-- A byte that is a decimal digit. -/
def digitByte (c : Nat) : Bool := 48 ≤ c && c ≤ 57

/-- The form `MM/YYYY`: exactly a two-digit month in `01..12`, a slash and a four-digit
year. -/
def isMonthYear (s : GoString) : Bool :=
  match s with
  | [m1, m2, sl, y1, y2, y3, y4] =>
    digitByte m1 && digitByte m2 && sl == 47 && digitByte y1 && digitByte y2 && digitByte y3
      && digitByte y4 && 1 ≤ (m1 - 48) * 10 + (m2 - 48) && (m1 - 48) * 10 + (m2 - 48) ≤ 12
  | _ => false

/-- The part of `parseMonthSelect` after the month element. -/
def parseYear (month : Int) (value : GoString) : Except ParseError Time :=
  match skip value (str "/") with
  | none => .error .bad
  | some value =>
  if value.length < 4 || !isDigit value 0 then .error .bad else
  match atoi (value.take 4) with
  | none => .error .bad
  | some year =>
  match skip (value.drop 4) [] with
  | none => .error .bad
  | some value =>
  if value.length ≠ 0 then .error .extraText else
  if (1 : Int) < 1 || 1 > daysIn month year then .error .dayOutOfRange else
  .ok (Date year month 1 0 0 0)

/-- The month and the year written in a string of the form `MM/YYYY`. -/
def monthOf (m1 m2 : Nat) : Int := ((m1 : Int) - 48) * 10 + ((m2 : Int) - 48)

def yearOf (y1 y2 y3 y4 : Nat) : Int :=
  ((((y1 : Int) - 48) * 10 + ((y2 : Int) - 48)) * 10 + ((y3 : Int) - 48)) * 10
    + ((y4 : Int) - 48)

/-- The string `MM/YYYY` of month `m` and year `y`. -/
def monthYearString (m y : Nat) : GoString :=
  [48 + m / 10 % 10, 48 + m % 10, 47,
    48 + y / 1000 % 10, 48 + y / 100 % 10, 48 + y / 10 % 10, 48 + y % 10]

/-- An environment whose stream starts failing after `n` rows, with a fixed clock. -/
def envFailingAfter (n : Nat) : Env :=
  { now := fun _ => ⟨1500000000⟩, stdoutFails := fun k => decide (n ≤ k), dump := fun _ => [] }

/-- An environment whose stream never fails, with a fixed clock. -/
def envHealthy : Env :=
  { now := fun _ => ⟨1500000000⟩, stdoutFails := fun _ => false, dump := fun _ => [] }

/-- A charge paid by card, expiry 08/2019, on an invoice. -/
def sampleCharge : Charge :=
  { ID := str "ch_1", Status := str "succeeded", Amount := 1999,
    Invoice := some ⟨str "in_7"⟩, Currency := str "usd", Created := 1483228800,
    FailMsg := [], FailCode := [],
    Source := { Type_ := str "card",
                Card := some ⟨8, 2019, str "Visa", str "4242"⟩,
                Display := str "Visa ending in 4242" },
    Outcome := ⟨str "normal", str "approved_by_network"⟩ }

/-- A charge without card and without invoice. -/
def sampleChargeNoCard : Charge :=
  { sampleCharge with
    ID := str "ch_2", Invoice := none,
    Source := { Type_ := str "bank_account", Card := none, Display := [] } }

/-- A charge whose card has the expiry month 13. -/
def sampleChargeBadCard : Charge :=
  { sampleCharge with
    ID := str "ch_3",
    Source := { sampleCharge.Source with Card := some ⟨13, 2019, str "Visa", str "4242"⟩ } }

/-- The rows of the charges, record `k` first; `none` when a card expiry does not parse. -/
def chargeRows (env : Env) : Nat → List Charge → Option (List (List GoString))
  | _, [] => some []
  | k, c :: rest =>
    match chargeRow (env.now k) c, chargeRows env (k + 1) rest with
    | some row, some rows => some (row :: rows)
    | _, _ => none

/-- The bytes of a sequence of records, one after the other. -/
def encodeRecords (records : List (List GoString)) : GoString :=
  records.flatMap encodeRecord

/-- The number of line feeds in the output. -/
def lineCount (out : GoString) : Nat := out.count 10

/-- The run of `exportCharges` in CSV mode picked up in the loop: `k` records are done, the
writer is `w`, the records `rest` are left. -/
def resume (env : Env) (k : Nat) (w : Writer) (rest : List Charge) : Run :=
  let (exit, w, rows) := exportLoop env k rest w k
  { exit := exit, out := w.out, buffered := w.buf, rows := rows }

/-- The identifier `exportCharges` puts in the column `invoice_num`. -/
def invoiceId (c : Charge) : GoString :=
  match c.Invoice with
  | none => []
  | some invoice => invoice.ID

/-- The row of a charge, given the three fields that come from the card. -/
def rowWith (c : Charge) (ccExpiry : Time) (ccBrand ccLastFour : GoString) : List GoString :=
  [c.ID, c.Status, sprintD c.Amount, invoiceId c,
    c.Currency, sprintD c.Created, c.FailMsg,
    c.FailCode, str "stripe", c.Source.Type_,
    ccBrand, ccLastFour, sprintD ccExpiry.Unix, c.Source.Display,
    c.Outcome.RiskLevel, c.Outcome.NetworkStatus]

/-- The row of `sampleCharge`. -/
def sampleRow : List GoString :=
  [str "ch_1", str "succeeded", str "1999", str "in_7", str "usd", str "1483228800", [], [],
    str "stripe", str "card", str "Visa", str "4242", str "1564617600",
    str "Visa ending in 4242", str "normal", str "approved_by_network"]

/-- The row of `sampleChargeNoCard` when the clock reads 1500000000. -/
def sampleRowNoCard : List GoString :=
  [str "ch_2", str "succeeded", str "1999", [], str "usd", str "1483228800", [], [],
    str "stripe", str "bank_account", [], [], str "1500000000", [], str "normal",
    str "approved_by_network"]

/-- The fuel of `writeLoop` is enough. -/
def enoughFuel (fuel : Nat) (b : Writer) (s : GoString) : Prop :=
  b.err = true ∨ s.length + (if b.Available = 0 then 1 else 0) < fuel

/-! ## The embedding on known values -/

theorem Date_known_values :
    Date 2017 12 1 0 0 0 = ⟨1512086400⟩ ∧
    (Date 2017 12 1 0 0 0).date = (2017, 12, 1) ∧
    (Date 2016 2 29 0 0 0).date = (2016, 2, 29) ∧
    (Date 2016 12 31 23 59 58).date = (2016, 12, 31) ∧
    (Date 2016 12 31 23 59 58).clock = (23, 59, 58) ∧
    (Date 2017 12 1 0 0 0).AddDate 0 1 0 = Date 2018 1 1 0 0 0 ∧
    (Date 2017 1 31 0 0 0).AddDate 0 1 0 = Date 2017 3 3 0 0 0 := by
  decide

theorem NewDateRange_known_values :
    str "12/2017" = [49, 50, 47, 50, 48, 49, 55] ∧
    NewDateRange (str "12/2017") = .ok ⟨⟨1512086400⟩, ⟨1514764800⟩⟩ ∧
    NewDateRange (str "13/2017") = .error .monthOutOfRange ∧
    NewDateRange (str "2017-01") = .error .monthOutOfRange ∧
    NewDateRange (str "1/2017") = .error .bad ∧
    NewDateRange (str "01/2017 ") = .error .extraText ∧
    NewDateRange (str "01/0000") = .ok ⟨⟨-62167219200⟩, ⟨-62164540800⟩⟩ ∧
    NewDateRange (str "12/9999") = .ok ⟨⟨253399622400⟩, ⟨253402300800⟩⟩ := by
  decide

theorem fmt_known_values :
    sprintD 1512086400 = str "1512086400" ∧
    sprintD (-5) = str "-5" ∧
    sprintD 0 = str "0" ∧
    sprintMonthYear 1 2017 = str "01/2017" ∧
    sprintMonthYear 12 2017 = str "12/2017" ∧
    sprintMonthYear 123 2017 = str "123/2017" ∧
    sprintMonthYear (-1) 2017 = str "-1/2017" ∧
    fmtInteger (-1) (some 3) true = str "-01" ∧
    fmtInteger 7 (some 3) false = str "  7" ∧
    FormatInt (-62167219200) = str "-62167219200" ∧
    parseDecimal (str "-62167219200") = some (-62167219200) := by
  decide

set_option maxRecDepth 100000 in
theorem csv_known_values :
    (encodeRecord header).length = 178 ∧
    encodeField (str "a,b") = str "\"a,b\"" ∧
    encodeField (str " a\"b") = str "\" a\"\"b\"" ∧
    encodeField (str "in_7") = str "in_7" ∧
    chargeRow ⟨1500000000⟩ sampleCharge = some sampleRow ∧
    chargeRow ⟨1500000000⟩ sampleChargeNoCard = some sampleRowNoCard ∧
    chargeRow ⟨1500000000⟩ sampleChargeBadCard = none := by
  decide

set_option maxRecDepth 100000 in
theorem exportCharges_known_value :
    (exportCharges envHealthy true [sampleCharge]).out =
      str ("id,status,amount,invoice_num,currency,created_at,failure_message,failure_type,"
        ++ "gateway,payment_type,cc_brand,cc_last_four,cc_expiry,payment_info,risk_level,"
        ++ "outcome_network_status\n"
        ++ "ch_1,succeeded,1999,in_7,usd,1483228800,,,stripe,card,Visa,4242,1564617600,"
        ++ "Visa ending in 4242,normal,approved_by_network\n") := by
  decide

/-! ## Package `time`: the first instant of a month -/

theorem isLeap_iff (y : Int) :
    isLeap y = true ↔ y % 4 = 0 ∧ (y % 100 ≠ 0 ∨ y % 400 = 0) := by
  simp [isLeap]

theorem daysSinceEpoch_eq (y : Int) (h0 : 0 ≤ y) (h1 : y ≤ 10000) :
    daysSinceEpoch y =
      365 * (y + 292277022399) + (y + 292277022399) / 4 - (y + 292277022399) / 100
        + (y + 292277022399) / 400 := by
  simp only [daysSinceEpoch, u64, absoluteZeroYear, daysPer400Years, daysPer100Years,
    daysPer4Years]
  omega

theorem month_cases (m : Int) (h1 : 1 ≤ m) (h2 : m ≤ 12) :
    m = 1 ∨ m = 2 ∨ m = 3 ∨ m = 4 ∨ m = 5 ∨ m = 6 ∨ m = 7 ∨ m = 8 ∨ m = 9 ∨ m = 10 ∨
      m = 11 ∨ m = 12 := by
  omega

theorem norm_id (hi lo base : Int) (h0 : 0 ≤ lo) (h1 : lo < base) :
    norm hi lo base = (hi, lo) := by
  unfold norm
  rw [if_neg (by omega)]
  simp only []
  rw [if_neg (by omega)]

theorem Date_eq (y m d h mi s : Int) (hm1 : 1 ≤ m) (hm2 : m ≤ 12)
    (hh : 0 ≤ h ∧ h < 24) (hmi : 0 ≤ mi ∧ mi < 60) (hs : 0 ≤ s ∧ s < 60) :
    (Date y m d h mi s).unix =
      i64 (i64 (u64 (u64 ((daysSinceEpoch y + daysBeforeAt (m - 1)
        + (if isLeap y = true ∧ 3 ≤ m then 1 else 0) + (d - 1)) * 86400)
        + (h * 3600 + mi * 60 + s))) + (-9223371966579724800 + -62135596800)) := by
  unfold Date
  rw [norm_id y (m - 1) 12 (by omega) (by omega), norm_id mi s 60 hs.1 hs.2]
  simp only []
  rw [norm_id h mi 60 hmi.1 hmi.2]
  simp only []
  rw [norm_id d h 24 hh.1 hh.2]
  simp only [secondsPerDay, secondsPerHour, secondsPerMinute, absoluteToInternal,
    internalToUnix, unixToInternal, absoluteZeroYear]
  norm_num
  congr 6
  split <;> simp

theorem daysSinceEpoch_cycles (y : Int) (h0 : 0 ≤ y) (h1 : y ≤ 10000) :
    ∃ a b c e : Int, y + 292277022399 = 400 * a + 100 * b + 4 * c + e ∧ 0 ≤ a ∧
      (0 ≤ b ∧ b ≤ 3) ∧ (0 ≤ c ∧ c ≤ 24) ∧ (0 ≤ e ∧ e ≤ 3) ∧
      daysSinceEpoch y = 146097 * a + 36524 * b + 1461 * c + 365 * e := by
  refine ⟨(y + 292277022399) / 400, (y + 292277022399) % 400 / 100,
    (y + 292277022399) % 100 / 4, (y + 292277022399) % 4, ?_, ?_, ?_, ?_, ?_, ?_⟩
  · omega
  · omega
  · omega
  · omega
  · omega
  · simp only [daysSinceEpoch, u64, absoluteZeroYear, daysPer400Years, daysPer100Years,
      daysPer4Years]
    omega

theorem absYearDay_eq (y k s : Int) (h0 : 0 ≤ y) (h1 : y ≤ 10000) (hk0 : 0 ≤ k)
    (hk : k < (if isLeap y = true then 366 else 365)) (hs0 : 0 ≤ s) (hs : s < 86400) :
    absYearDay ((daysSinceEpoch y + k) * 86400 + s) = (y, k) := by
  have hl := isLeap_iff y
  obtain ⟨a, b, c, e, hY, ha, hb, hc, he, hd⟩ := daysSinceEpoch_cycles y h0 h1
  have hk' : k ≤ 364 ∨ (k = 365 ∧ e = 3 ∧ (c ≠ 24 ∨ b = 3)) := by
    cases hb : isLeap y <;> simp [hb] at hl hk <;> omega
  clear hl hk
  rw [hd]
  simp only [absYearDay, secondsPerDay, daysPer400Years, daysPer100Years, daysPer4Years,
    absoluteZeroYear]
  generalize hd0 : ((146097 * a + 36524 * b + 1461 * c + 365 * e + k) * 86400 + s) /
    (24 * 60 * 60) = d0
  have e0 : d0 = 146097 * a + 36524 * b + 1461 * c + 365 * e + k := by omega
  clear hd0
  generalize hn0 : d0 / (365 * 400 + 97) = n0
  have e1 : n0 = a := by omega
  clear hn0
  generalize hn1 : (d0 - (365 * 400 + 97) * n0) / (365 * 100 + 24) = n1
  have r2 : (0 ≤ 1461 * c + 365 * e + k ∧ 1461 * c + 365 * e + k ≤ 36523) ∨
      (1461 * c + 365 * e + k = 36524 ∧ b = 3) := by omega
  have e2 : n1 - n1 / 4 = b := by
    rcases r2 with r2 | r2
    · have : n1 = b := by omega
      omega
    · have : n1 = 4 := by omega
      omega
  clear hn1
  rw [e2]
  generalize hn2 : (d0 - (365 * 400 + 97) * n0 - (365 * 100 + 24) * b) / (365 * 4 + 1) = n2
  have r3 : 0 ≤ 365 * e + k ∧ 365 * e + k ≤ 1460 := by omega
  have e3 : n2 = c := by omega
  clear hn2
  generalize hn3 : (d0 - (365 * 400 + 97) * n0 - (365 * 100 + 24) * b - (365 * 4 + 1) * n2) / 365
    = n3
  have r4 : (0 ≤ k ∧ k ≤ 364) ∨ (k = 365 ∧ e = 3) := by omega
  have e4 : n3 - n3 / 4 = e := by
    rcases r4 with r4 | r4
    · have : n3 = e := by omega
      omega
    · have : n3 = 4 := by omega
      omega
  clear hn3
  rw [e4]
  simp only [i64, Prod.mk.injEq]
  constructor <;> omega

theorem absDate_eq (abs : Int) :
    absDate abs = monthDay (absYearDay abs).1 (absYearDay abs).2 := rfl

theorem firstYday_bounds (y m : Int) (hm1 : 1 ≤ m) (hm2 : m ≤ 12) :
    0 ≤ firstYday y m ∧ firstYday y m < (if isLeap y = true then 366 else 365) := by
  rcases month_cases m hm1 hm2 with rfl | rfl | rfl | rfl | rfl | rfl | rfl | rfl | rfl | rfl |
    rfl | rfl <;> cases hb : isLeap y <;> simp [firstYday, hb, daysBeforeAt, daysBefore]

theorem monthDay_first (y m : Int) (hm1 : 1 ≤ m) (hm2 : m ≤ 12) :
    monthDay y (firstYday y m) = (y, m, 1) := by
  rcases month_cases m hm1 hm2 with rfl | rfl | rfl | rfl | rfl | rfl | rfl | rfl | rfl | rfl |
    rfl | rfl <;> cases hb : isLeap y <;>
    simp [monthDay, firstYday, hb, daysBeforeAt, daysBefore]

theorem Date_first_unix (y m : Int) (h0 : 0 ≤ y) (h1 : y ≤ 10000) (hm1 : 1 ≤ m) (hm2 : m ≤ 12) :
    (Date y m 1 0 0 0).unix =
      (daysSinceEpoch y + firstYday y m) * 86400 - 9223371966579724800 - 62135596800 := by
  rw [Date_eq y m 1 0 0 0 hm1 hm2 (by omega) (by omega) (by omega)]
  obtain ⟨a, b, c, e, hY, ha, hb, hc, he, hd⟩ := daysSinceEpoch_cycles y h0 h1
  have hk := firstYday_bounds y m hm1 hm2
  have hk2 : firstYday y m < 366 := by
    have := hk.2
    split at this <;> omega
  have hf : daysSinceEpoch y + daysBeforeAt (m - 1)
      + (if isLeap y = true ∧ 3 ≤ m then 1 else 0) = daysSinceEpoch y + firstYday y m := by
    simp only [firstYday, add_assoc]
  rw [hf, hd]
  generalize firstYday y m = k at hk hk2 ⊢
  simp only [u64, i64]
  omega

theorem Date_first_abs (y m : Int) (h0 : 0 ≤ y) (h1 : y ≤ 10000) (hm1 : 1 ≤ m) (hm2 : m ≤ 12) :
    (Date y m 1 0 0 0).abs = (daysSinceEpoch y + firstYday y m) * 86400 + 0 := by
  have hu := Date_first_unix y m h0 h1 hm1 hm2
  obtain ⟨a, b, c, e, hY, ha, hb, hc, he, hd⟩ := daysSinceEpoch_cycles y h0 h1
  have hk := firstYday_bounds y m hm1 hm2
  have hk2 : firstYday y m < 366 := by
    have := hk.2
    split at this <;> omega
  simp only [Time.abs, hu, u64, unixToInternal, internalToAbsolute, absoluteToInternal,
    absoluteZeroYear, secondsPerDay]
  rw [hd]
  generalize firstYday y m = k at hk hk2 ⊢
  omega

/-- Reading back the civil date of the first instant of a month. -/
theorem Date_first_date (y m : Int) (h0 : 0 ≤ y) (h1 : y ≤ 10000) (hm1 : 1 ≤ m) (hm2 : m ≤ 12) :
    (Date y m 1 0 0 0).date = (y, m, 1) := by
  have hk := firstYday_bounds y m hm1 hm2
  rw [Time.date, Date_first_abs y m h0 h1 hm1 hm2, absDate_eq,
    absYearDay_eq y (firstYday y m) 0 h0 h1 hk.1 hk.2 (by omega) (by omega)]
  exact monthDay_first y m hm1 hm2

theorem Date_first_clock (y m : Int) (h0 : 0 ≤ y) (h1 : y ≤ 10000) (hm1 : 1 ≤ m) (hm2 : m ≤ 12) :
    (Date y m 1 0 0 0).clock = (0, 0, 0) := by
  simp only [Time.clock, Date_first_abs y m h0 h1 hm1 hm2, secondsPerDay, secondsPerHour,
    secondsPerMinute]
  norm_num

/-- Adding one month to the first instant of a month gives `Date(y, m+1, 1, 0, 0, 0)`. -/
theorem Date_first_AddDate (y m : Int) (h0 : 0 ≤ y) (h1 : y ≤ 10000) (hm1 : 1 ≤ m)
    (hm2 : m ≤ 12) :
    (Date y m 1 0 0 0).AddDate 0 1 0 = Date y (m + 1) 1 0 0 0 := by
  unfold Time.AddDate
  rw [Date_first_date y m h0 h1 hm1 hm2, Date_first_clock y m h0 h1 hm1 hm2]
  simp only [add_zero]

/-- Month overflow of `Date`: month 13 is January of the following year. -/
theorem Date_month13 (y d h mi s : Int) : Date y 13 d h mi s = Date (y + 1) 1 d h mi s := by
  have e1 : norm y (13 - 1) 12 = (y + 1, 0) := by simp [norm]
  have e2 : norm (y + 1) (1 - 1) 12 = (y + 1, 0) := by simp [norm]
  unfold Date
  rw [e1, e2]

/-! ## `time.Parse` on the form `MM/YYYY` -/

theorem str_slash : str "/" = [47] := by decide

theorem leadingInt_digit (c : Nat) (rest : GoString) (x : Int) (hc : digitByte c = true)
    (hx0 : 0 ≤ x) (hx : x ≤ 99999) :
    leadingInt (c :: rest) x = leadingInt rest (x * 10 + ((c : Int) - 48)) := by
  simp only [digitByte, Bool.and_eq_true, decide_eq_true_eq] at hc
  have h1 : ¬ (c < 48 ∨ c > 57) := by omega
  have h2 : ¬ x > 9223372036854775807 / 10 := by omega
  have h3 : i64 (x * 10 + (c : Int) - 48) = x * 10 + ((c : Int) - 48) := by
    simp only [i64]; omega
  have h4 : ¬ x * 10 + ((c : Int) - 48) < 0 := by omega
  rw [leadingInt, if_neg (by simpa using h1), if_neg h2]
  simp only [h3]
  rw [if_neg h4]

theorem leadingInt_nondigit (c : Nat) (rest : GoString) (x : Int) (hc : digitByte c = false) :
    leadingInt (c :: rest) x = some (x, c :: rest) := by
  simp only [digitByte, Bool.and_eq_false_iff, decide_eq_false_iff_not] at hc
  have h1 : c < 48 ∨ c > 57 := by omega
  simp [leadingInt, h1]

theorem atoi_four_digits (y1 y2 y3 y4 : Nat) (h1 : digitByte y1 = true)
    (h2 : digitByte y2 = true) (h3 : digitByte y3 = true) (h4 : digitByte y4 = true) :
    atoi [y1, y2, y3, y4] =
      some (((((y1 : Int) - 48) * 10 + ((y2 : Int) - 48)) * 10 + ((y3 : Int) - 48)) * 10
        + ((y4 : Int) - 48)) := by
  have d1 := h1
  have d2 := h2
  have d3 := h3
  have d4 := h4
  simp only [digitByte, Bool.and_eq_true, decide_eq_true_eq] at d1 d2 d3 d4
  have hs : ¬ (y1 = 45 ∨ y1 = 43) := by omega
  simp only [atoi, beq_iff_eq, Bool.or_eq_true, hs, if_false]
  rw [leadingInt_digit y1 _ 0 h1 (by omega) (by omega),
    leadingInt_digit y2 _ _ h2 (by omega) (by omega),
    leadingInt_digit y3 _ _ h3 (by omega) (by omega),
    leadingInt_digit y4 _ _ h4 (by omega) (by omega)]
  simp [leadingInt]

theorem atoi_four_bad (y1 y2 y3 y4 : Nat) (h1 : digitByte y1 = true)
    (h : (digitByte y2 && digitByte y3 && digitByte y4) = false) :
    atoi [y1, y2, y3, y4] = none := by
  have d1 := h1
  simp only [digitByte, Bool.and_eq_true, decide_eq_true_eq] at d1
  have hs : ¬ (y1 = 45 ∨ y1 = 43) := by omega
  simp only [atoi, beq_iff_eq, Bool.or_eq_true, hs, if_false]
  rw [leadingInt_digit y1 _ 0 h1 (by omega) (by omega)]
  cases h2 : digitByte y2
  · rw [leadingInt_nondigit y2 _ _ h2]; simp
  · have d2 := h2
    simp only [digitByte, Bool.and_eq_true, decide_eq_true_eq] at d2
    rw [leadingInt_digit y2 _ _ h2 (by omega) (by omega)]
    cases h3 : digitByte y3
    · rw [leadingInt_nondigit y3 _ _ h3]; simp
    · have d3 := h3
      simp only [digitByte, Bool.and_eq_true, decide_eq_true_eq] at d3
      rw [leadingInt_digit y3 _ _ h3 (by omega) (by omega)]
      cases h4 : digitByte y4
      · rw [leadingInt_nondigit y4 _ _ h4]; simp
      · simp [h2, h3, h4] at h

theorem daysIn_pos (m y : Int) (hm1 : 1 ≤ m) (hm2 : m ≤ 12) : 1 ≤ daysIn m y := by
  rcases month_cases m hm1 hm2 with rfl | rfl | rfl | rfl | rfl | rfl | rfl | rfl | rfl | rfl |
    rfl | rfl <;> cases hb : isLeap y <;> simp [daysIn, hb, daysBeforeAt, daysBefore]

theorem skip_nil (v : GoString) : skip v [] = some v := by
  cases v <;> rfl

theorem skip_slash_cons (c : Nat) (v : GoString) :
    skip (c :: v) (str "/") = if c = 47 then some v else none := by
  rw [str_slash]
  by_cases h : c = 47
  · subst h; simp [skip, skipLoop]
  · simp [skip, skipLoop, h]

theorem skip_slash_nil : skip [] (str "/") = none := by
  rw [str_slash]; rfl

theorem getnum_two (a b : Nat) (rest : GoString) :
    getnum (a :: b :: rest) true =
      if (digitByte a && digitByte b) = true then
        some (((a : Int) - 48) * 10 + ((b : Int) - 48), rest)
      else none := by
  cases ha : digitByte a <;> cases hb : digitByte b <;>
    simp [getnum, isDigit, digitByte] at ha hb ⊢ <;> simp_all

theorem parseMonthSelect_eq (s : GoString) :
    parseMonthSelect s =
      match getnum s true with
      | none => .error .bad
      | some (month, value) =>
        if month ≤ 0 || 12 < month then .error .monthOutOfRange else parseYear month value := by
  unfold parseMonthSelect parseYear
  rw [skip_nil]

theorem getnum_short (s : GoString) (h : s.length < 2) : getnum s true = none := by
  rcases s with _ | ⟨a, _ | ⟨b, rest⟩⟩
  · rfl
  · simp [getnum, isDigit]
  · simp at h
    omega

theorem parseYear_short (m : Int) (v : GoString) (h : v.length < 5) :
    parseYear m v = .error .bad := by
  rcases v with _ | ⟨sl, v⟩
  · simp [parseYear, skip_slash_nil]
  · have h' : v.length < 4 := by
      simp only [List.length_cons] at h
      omega
    simp only [parseYear, skip_slash_cons]
    by_cases hsl : sl = 47
    · simp [hsl, h']
    · simp [hsl]

theorem parseYear_long (m : Int) (sl y1 y2 y3 y4 : Nat) (rest : GoString) :
    parseYear m (sl :: y1 :: y2 :: y3 :: y4 :: rest) =
      if sl = 47 ∧ digitByte y1 = true then
        match atoi [y1, y2, y3, y4] with
        | none => .error .bad
        | some year =>
          if rest ≠ [] then .error .extraText
          else if 1 > daysIn m year then .error .dayOutOfRange
          else .ok (Date year m 1 0 0 0)
      else .error .bad := by
  simp only [parseYear, skip_slash_cons, skip_nil]
  by_cases hsl : sl = 47
  · by_cases hy : digitByte y1 = true
    · have hd : isDigit (y1 :: y2 :: y3 :: y4 :: rest) 0 = true := by
        simpa [isDigit, digitByte] using hy
      simp [hsl, hy, hd]
    · have hd : isDigit (y1 :: y2 :: y3 :: y4 :: rest) 0 = false := by
        simpa [isDigit, digitByte] using hy
      simp [hsl, hy, hd]
  · simp [hsl]

theorem parse_form (m1 m2 y1 y2 y3 y4 : Nat) (hm1 : digitByte m1 = true)
    (hm2 : digitByte m2 = true) (h1 : digitByte y1 = true) (h2 : digitByte y2 = true)
    (h3 : digitByte y3 = true) (h4 : digitByte y4 = true)
    (hlo : 1 ≤ monthOf m1 m2) (hhi : monthOf m1 m2 ≤ 12) :
    parseMonthSelect [m1, m2, 47, y1, y2, y3, y4] =
      .ok (Date (yearOf y1 y2 y3 y4) (monthOf m1 m2) 1 0 0 0) := by
  have hr : ¬ (monthOf m1 m2 ≤ 0 ∨ 12 < monthOf m1 m2) := by omega
  have hday : ¬ 1 > daysIn (monthOf m1 m2) (yearOf y1 y2 y3 y4) := by
    have := daysIn_pos (monthOf m1 m2) (yearOf y1 y2 y3 y4) hlo hhi
    omega
  rw [parseMonthSelect_eq, getnum_two]
  simp only [hm1, hm2, Bool.and_self, if_true]
  have hr' : (decide (monthOf m1 m2 ≤ 0) || decide (12 < monthOf m1 m2)) = false := by
    simpa using hr
  change (if (decide (monthOf m1 m2 ≤ 0) || decide (12 < monthOf m1 m2)) = true then _ else _) = _
  rw [hr']
  simp only [Bool.false_eq_true, if_false]
  rw [parseYear_long, atoi_four_digits y1 y2 y3 y4 h1 h2 h3 h4]
  simp only [h1, and_self, if_true, ne_eq, not_true_eq_false, if_false]
  exact if_neg hday

theorem parse_not_form (s : GoString) (h : isMonthYear s = false) :
    ∃ e, parseMonthSelect s = .error e := by
  rw [parseMonthSelect_eq]
  rcases s with _ | ⟨m1, _ | ⟨m2, rest⟩⟩
  · exact ⟨_, rfl⟩
  · rw [getnum_short _ (by simp)]; exact ⟨_, rfl⟩
  rw [getnum_two]
  cases hm : (digitByte m1 && digitByte m2)
  · exact ⟨_, rfl⟩
  simp only [if_true]
  by_cases hr : monthOf m1 m2 ≤ 0 ∨ 12 < monthOf m1 m2
  · refine ⟨.monthOutOfRange, ?_⟩
    have hr' : (decide (monthOf m1 m2 ≤ 0) || decide (12 < monthOf m1 m2)) = true := by
      simpa using hr
    exact if_pos hr'
  have hr' : (decide (monthOf m1 m2 ≤ 0) || decide (12 < monthOf m1 m2)) = false := by
    simpa using hr
  change ∃ e, (if (decide (monthOf m1 m2 ≤ 0) || decide (12 < monthOf m1 m2)) = true then _
    else parseYear (monthOf m1 m2) rest) = _
  rw [hr']
  simp only [Bool.false_eq_true, if_false]
  rcases rest with _ | ⟨sl, _ | ⟨y1, _ | ⟨y2, _ | ⟨y3, _ | ⟨y4, rest⟩⟩⟩⟩⟩
  · exact ⟨_, parseYear_short _ _ (by simp)⟩
  · exact ⟨_, parseYear_short _ _ (by simp)⟩
  · exact ⟨_, parseYear_short _ _ (by simp)⟩
  · exact ⟨_, parseYear_short _ _ (by simp)⟩
  · exact ⟨_, parseYear_short _ _ (by simp)⟩
  rw [parseYear_long]
  by_cases hc : sl = 47 ∧ digitByte y1 = true
  · rw [if_pos hc]
    cases hy : (digitByte y2 && digitByte y3 && digitByte y4)
    · rw [atoi_four_bad y1 y2 y3 y4 hc.2 hy]; exact ⟨_, rfl⟩
    · simp only [Bool.and_eq_true] at hy hm
      rw [atoi_four_digits y1 y2 y3 y4 hc.2 hy.1.1 hy.1.2 hy.2]
      rcases rest with _ | ⟨x, rest⟩
      · exfalso
        have d1 := hm.1
        have d2 := hm.2
        simp only [digitByte, Bool.and_eq_true, decide_eq_true_eq] at d1 d2
        simp only [monthOf] at hr
        have e1 : 1 ≤ (m1 - 48) * 10 + (m2 - 48) := by omega
        have e2 : (m1 - 48) * 10 + (m2 - 48) ≤ 12 := by omega
        simp [isMonthYear, hm.1, hm.2, hc.1, hc.2, hy.1.1, hy.1.2, hy.2, e1, e2] at h
      · exact ⟨.extraText, by simp⟩
  · rw [if_neg hc]; exact ⟨_, rfl⟩

theorem firstYday_succ (y m : Int) (hm1 : 1 ≤ m) (hm2 : m ≤ 11) :
    firstYday y (m + 1) = firstYday y m + daysIn m y := by
  have hm3 : m ≤ 12 := by omega
  rcases month_cases m hm1 hm3 with rfl | rfl | rfl | rfl | rfl | rfl | rfl | rfl | rfl | rfl |
    rfl | rfl <;> cases hb : isLeap y <;>
    simp [firstYday, daysIn, hb, daysBeforeAt, daysBefore] at hm2 ⊢

theorem firstYday_december (y : Int) :
    firstYday y 12 + daysIn 12 y = if isLeap y = true then 366 else 365 := by
  cases hb : isLeap y <;> simp [firstYday, daysIn, hb, daysBeforeAt, daysBefore]

theorem firstYday_january (y : Int) : firstYday y 1 = 0 := by
  simp [firstYday, daysBeforeAt, daysBefore]

theorem daysSinceEpoch_succ (y : Int) (h0 : 0 ≤ y) (h1 : y ≤ 9999) :
    daysSinceEpoch (y + 1) = daysSinceEpoch y + (if isLeap y = true then 366 else 365) := by
  have hl := isLeap_iff y
  rw [daysSinceEpoch_eq y h0 (by omega), daysSinceEpoch_eq (y + 1) (by omega) (by omega)]
  cases hb : isLeap y <;> simp [hb] at hl ⊢ <;> omega

/-- The first instant of the following month is `daysIn` days later. -/
theorem Date_next_month_unix (y m : Int) (h0 : 0 ≤ y) (h1 : y ≤ 9999) (hm1 : 1 ≤ m)
    (hm2 : m ≤ 12) :
    (Date y (m + 1) 1 0 0 0).unix = (Date y m 1 0 0 0).unix + daysIn m y * 86400 := by
  rw [Date_first_unix y m h0 (by omega) hm1 hm2]
  by_cases h12 : m = 12
  · subst h12
    have e : (12 : Int) + 1 = 13 := by norm_num
    rw [e, Date_month13, Date_first_unix (y + 1) 1 (by omega) (by omega) (by omega) (by omega),
      daysSinceEpoch_succ y h0 h1, firstYday_january, ← firstYday_december]
    ring
  · rw [Date_first_unix y (m + 1) h0 (by omega) (by omega) (by omega),
      firstYday_succ y m hm1 (by omega)]
    ring

theorem isMonthYear_shape (s : GoString) (h : isMonthYear s = true) :
    ∃ m1 m2 y1 y2 y3 y4 : Nat, s = [m1, m2, 47, y1, y2, y3, y4] ∧
      digitByte m1 = true ∧ digitByte m2 = true ∧ digitByte y1 = true ∧ digitByte y2 = true ∧
      digitByte y3 = true ∧ digitByte y4 = true ∧
      1 ≤ (m1 - 48) * 10 + (m2 - 48) ∧ (m1 - 48) * 10 + (m2 - 48) ≤ 12 := by
  rcases s with _ | ⟨m1, _ | ⟨m2, _ | ⟨sl, _ | ⟨y1, _ | ⟨y2, _ | ⟨y3, _ | ⟨y4, _ | ⟨x, r⟩⟩⟩⟩⟩⟩⟩⟩ <;>
    simp only [isMonthYear, Bool.false_eq_true] at h
  simp only [Bool.and_eq_true, beq_iff_eq, decide_eq_true_eq] at h
  obtain ⟨⟨⟨⟨⟨⟨⟨⟨a, b⟩, c⟩, d⟩, e⟩, f⟩, g⟩, i⟩, j⟩ := h
  subst c
  exact ⟨m1, m2, y1, y2, y3, y4, rfl, a, b, d, e, f, g, i, j⟩

theorem parse_isMonthYear (s : GoString) (h : isMonthYear s = true) :
    ∃ m y : Nat, 1 ≤ m ∧ m ≤ 12 ∧ y ≤ 9999 ∧ s = monthYearString m y ∧
      parseMonthSelect s = .ok (Date y m 1 0 0 0) := by
  obtain ⟨m1, m2, y1, y2, y3, y4, rfl, a, b, d, e, f, g, i, j⟩ := isMonthYear_shape s h
  have a' := a
  have b' := b
  have d' := d
  have e' := e
  have f' := f
  have g' := g
  simp only [digitByte, Bool.and_eq_true, decide_eq_true_eq] at a' b' d' e' f' g'
  refine ⟨(m1 - 48) * 10 + (m2 - 48),
    (((y1 - 48) * 10 + (y2 - 48)) * 10 + (y3 - 48)) * 10 + (y4 - 48), i, j, by omega, ?_, ?_⟩
  · simp only [monthYearString, List.cons.injEq, and_true]
    refine ⟨?_, ?_, trivial, ?_, ?_, ?_, ?_⟩ <;> omega
  · have hm : monthOf m1 m2 = (((m1 - 48) * 10 + (m2 - 48) : Nat) : Int) := by
      simp only [monthOf]; omega
    have hy : yearOf y1 y2 y3 y4 =
        (((((y1 - 48) * 10 + (y2 - 48)) * 10 + (y3 - 48)) * 10 + (y4 - 48) : Nat) : Int) := by
      simp only [yearOf]; omega
    rw [parse_form m1 m2 y1 y2 y3 y4 a b d e f g (by omega) (by omega), hm, hy]

/-! ## `NewDateRange` -/

/-- C1: for every string of the form `MM/YYYY` (month `m` in 01..12, year `y`),
`NewDateRange` succeeds with `Begin` the instant `y-m-01T00:00:00` UTC and `End` the first
instant of the following calendar month (`y-(m+1)-01` when `m < 12`, `(y+1)-01-01` when
`m = 12`); `End` is `Begin` advanced by one calendar month and `Begin` is before `End`. In
particular `"12/2017"` gives `2017-12-01T00:00:00` and `2018-01-01T00:00:00`. -/
theorem C1_NewDateRange_month (s : GoString) (h : isMonthYear s = true) :
    (∃ m y : Nat, 1 ≤ m ∧ m ≤ 12 ∧ y ≤ 9999 ∧ s = monthYearString m y ∧
      ∃ dr, NewDateRange s = .ok dr ∧
        dr.Begin = Date y m 1 0 0 0 ∧
        dr.End = (if m < 12 then Date y ((m : Int) + 1) 1 0 0 0
          else Date ((y : Int) + 1) 1 1 0 0 0) ∧
        dr.End = dr.Begin.AddDate 0 1 0 ∧
        dr.Begin.date = ((y : Int), (m : Int), 1) ∧
        dr.Begin.Unix < dr.End.Unix) ∧
    NewDateRange (str "12/2017") = .ok ⟨Date 2017 12 1 0 0 0, Date 2018 1 1 0 0 0⟩ := by
  constructor
  · obtain ⟨m, y, hm1, hm2, hy, hs, hp⟩ := parse_isMonthYear s h
    have h0 : (0 : Int) ≤ y := by omega
    have h1 : (y : Int) ≤ 9999 := by omega
    have k1 : (1 : Int) ≤ m := by omega
    have k2 : (m : Int) ≤ 12 := by omega
    have hadd := Date_first_AddDate y m h0 (by omega) k1 k2
    have hnd : NewDateRange s
        = .ok ⟨Date y m 1 0 0 0, (Date y m 1 0 0 0).AddDate 0 1 0⟩ := by
      simp only [NewDateRange, hp]
    have hend : (Date y m 1 0 0 0).AddDate 0 1 0
        = (if m < 12 then Date y ((m : Int) + 1) 1 0 0 0
          else Date ((y : Int) + 1) 1 1 0 0 0) := by
      rw [hadd]
      by_cases hlt : m < 12
      · rw [if_pos hlt]
      · have e : m = 12 := by omega
        subst e
        rw [if_neg hlt]
        exact Date_month13 y 1 0 0 0
    have hlt : (Date y m 1 0 0 0).unix < ((Date y m 1 0 0 0).AddDate 0 1 0).unix := by
      rw [hadd, Date_next_month_unix y m h0 h1 k1 k2]
      have hd := daysIn_pos m y k1 k2
      generalize (Date (y : Int) (m : Int) 1 0 0 0).unix = b
      generalize daysIn (m : Int) (y : Int) = d at hd
      omega
    have hdate := Date_first_date y m h0 (by omega) k1 k2
    refine ⟨m, y, hm1, hm2, hy, hs, _, hnd, ?_, ?_, ?_, ?_, ?_⟩ <;> dsimp only [Time.Unix]
    · exact hend
    · exact hdate
    · exact hlt
  · decide

theorem C1_NewDateRange_month_witness :
    isMonthYear (str "12/2017") = true ∧
      NewDateRange (str "12/2017") = .ok ⟨Date 2017 12 1 0 0 0, Date 2018 1 1 0 0 0⟩ :=
  ⟨by decide, (C1_NewDateRange_month (str "12/2017") (by decide)).2⟩

/-- C5: `NewDateRange` returns a `DateRange` (and no error) exactly for the strings of the
form `MM/YYYY` - a two-digit month in 01..12, a slash, a four-digit year - and an error (and
no `DateRange`) for every other string, `"13/2017"` and `"2017-01"` among them. The result
is a function of the input string alone. -/
theorem C5_NewDateRange_error_iff (s : GoString) :
    ((∃ dr, NewDateRange s = .ok dr) ↔ isMonthYear s = true) ∧
    ((∃ e, NewDateRange s = .error e) ↔ isMonthYear s = false) ∧
    (∃ e, NewDateRange (str "13/2017") = .error e) ∧
    (∃ e, NewDateRange (str "2017-01") = .error e) := by
  have hok : isMonthYear s = true → ∃ dr, NewDateRange s = .ok dr := by
    intro h
    obtain ⟨m, y, -, -, -, -, hp⟩ := parse_isMonthYear s h
    simp only [NewDateRange, hp]
    exact ⟨_, rfl⟩
  have herr : isMonthYear s = false → ∃ e, NewDateRange s = .error e := by
    intro h
    obtain ⟨e, he⟩ := parse_not_form s h
    simp only [NewDateRange, he]
    exact ⟨_, rfl⟩
  refine ⟨⟨?_, hok⟩, ⟨?_, herr⟩, ⟨.monthOutOfRange, by decide⟩, ⟨.monthOutOfRange, by decide⟩⟩
  · rintro ⟨dr, hdr⟩
    cases hf : isMonthYear s
    · obtain ⟨e, he⟩ := herr hf
      rw [he] at hdr
      cases hdr
    · rfl
  · rintro ⟨e, he⟩
    cases hf : isMonthYear s
    · rfl
    · obtain ⟨dr, hdr⟩ := hok hf
      rw [hdr] at he
      cases he

/-! ## The buffered writer -/

theorem Flush_healthy (b : Writer) (he : b.err = false) :
    b.Flush false = { buf := [], err := false, out := b.out ++ b.buf } := by
  obtain ⟨buf, err, out⟩ := b
  simp only at he
  subst he
  cases buf with
  | nil => simp [Writer.Flush]
  | cons c rest => simp [Writer.Flush, stdoutWrite]

theorem Flush_failing (b : Writer) (he : b.err = false) (hb : b.buf ≠ []) :
    b.Flush true = { buf := b.buf, err := true, out := b.out } := by
  obtain ⟨buf, err, out⟩ := b
  simp only at he hb
  subst he
  cases buf with
  | nil => exact absurd rfl hb
  | cons c rest => simp [Writer.Flush, stdoutWrite]

theorem Flush_err (fails : Bool) (b : Writer) (he : b.err = true) : b.Flush fails = b := by
  simp [Writer.Flush, he]

theorem Flush_failing_out (b : Writer) : (b.Flush true).out = b.out := by
  obtain ⟨buf, err, out⟩ := b
  cases err
  · cases buf with
    | nil => simp [Writer.Flush]
    | cons c rest => simp [Writer.Flush, stdoutWrite]
  · simp [Writer.Flush]

theorem writeLoop_healthy (fuel : Nat) :
    ∀ (b : Writer) (s : GoString), b.err = false → b.buf.length ≤ defaultBufSize →
      s.length + (if b.buf.length = defaultBufSize then 1 else 0) < fuel →
      (Writer.writeLoop false fuel b s).2 = false ∧
      (Writer.writeLoop false fuel b s).1.err = false ∧
      (Writer.writeLoop false fuel b s).1.out ++ (Writer.writeLoop false fuel b s).1.buf
        = b.out ++ b.buf ++ s ∧
      (Writer.writeLoop false fuel b s).1.buf.length ≤ defaultBufSize := by
  induction fuel with
  | zero => intro b s _ _ h; omega
  | succ fuel ih =>
    intro b s he hb hf
    by_cases hfit : s.length > b.Available
    · -- the string does not fit: fill, flush, go on
      have hcond : (decide (s.length > b.Available) && !b.err) = true := by simp [hfit, he]
      have hav : b.Available = defaultBufSize - b.buf.length := rfl
      have hmin : min b.Available s.length = b.Available := by omega
      rw [Writer.writeLoop, if_pos hcond]
      simp only [hmin]
      have hfl := Flush_healthy { buf := b.buf ++ s.take b.Available, err := b.err, out := b.out }
        he
      simp only at hfl
      rw [hfl]
      have hlen : (s.drop b.Available).length = s.length - b.Available := by simp
      have hfuel : (s.drop b.Available).length + (if ([] : GoString).length = defaultBufSize
          then 1 else 0) < fuel := by
        simp only [List.length_nil, defaultBufSize] at *
        rw [hlen]
        split at hf <;> simp <;> omega
      obtain ⟨r1, r2, r3, r4⟩ := ih ⟨[], false, b.out ++ (b.buf ++ s.take b.Available)⟩
        (s.drop b.Available) rfl (by simp) hfuel
      refine ⟨r1, r2, ?_, r4⟩
      rw [r3]
      simp only [List.append_nil, List.append_assoc, List.take_append_drop]
    · have hcond : (decide (s.length > b.Available) && !b.err) = false := by simp [hfit]
      have hav : b.Available = defaultBufSize - b.buf.length := rfl
      rw [Writer.writeLoop, if_neg (by simp [hcond]), if_neg (by simp [he])]
      refine ⟨rfl, he, by simp, ?_⟩
      simp only [List.length_append]
      omega

theorem writeLoop_err (fails : Bool) (fuel : Nat) (b : Writer) (s : GoString)
    (he : b.err = true) : Writer.writeLoop fails fuel b s = (b, true) := by
  cases fuel with
  | zero => rfl
  | succ fuel => simp [Writer.writeLoop, he]

/-! ### One write or several

`csv.Writer.Write` makes many small writes on the `bufio.Writer`; they come to one write of
the CSV text of the record. -/

theorem Flush_nonempty (fails : Bool) (b : Writer) (he : b.err = false) (hb : b.buf ≠ []) :
    b.Flush fails = if fails then { buf := b.buf, err := true, out := b.out }
      else { buf := [], err := false, out := b.out ++ b.buf } := by
  cases fails
  · rw [Flush_healthy b he]; rfl
  · rw [Flush_failing b he hb]; rfl

theorem writeLoop_step (fails : Bool) (fuel : Nat) (b : Writer) (s : GoString)
    (he : b.err = false) (hfit : s.length > b.Available) :
    Writer.writeLoop fails (fuel + 1) b s
      = Writer.writeLoop fails fuel
          (Writer.Flush fails { buf := b.buf ++ s.take b.Available, err := false, out := b.out })
          (s.drop b.Available) := by
  have hcond : (decide (s.length > b.Available) && !b.err) = true := by simp [hfit, he]
  have hmin : min b.Available s.length = b.Available := by omega
  rw [Writer.writeLoop, if_pos hcond]
  simp only [hmin, he]

theorem writeLoop_fits (fails : Bool) (fuel : Nat) (b : Writer) (s : GoString)
    (he : b.err = false) (hfit : ¬ s.length > b.Available) :
    Writer.writeLoop fails (fuel + 1) b s = ({ b with buf := b.buf ++ s }, false) := by
  have hcond : (decide (s.length > b.Available) && !b.err) = false := by simp [hfit]
  rw [Writer.writeLoop, if_neg (by simp [hcond]), if_neg (by simp [he])]

theorem fill_ne_nil (b : Writer) (s : GoString) (hfit : s.length > b.Available) :
    b.buf ++ s.take b.Available ≠ [] := by
  have hav : b.Available = defaultBufSize - b.buf.length := rfl
  intro h
  have hl := congrArg List.length h
  simp only [List.length_append, List.length_take, List.length_nil, defaultBufSize] at hl hav
  omega

theorem enoughFuel_step (fails : Bool) (fuel : Nat) (b : Writer) (s : GoString)
    (he : b.err = false) (hfit : s.length > b.Available) (h : enoughFuel (fuel + 1) b s) :
    enoughFuel fuel
      (Writer.Flush fails { buf := b.buf ++ s.take b.Available, err := false, out := b.out })
      (s.drop b.Available) := by
  rw [Flush_nonempty fails _ rfl (fill_ne_nil b s hfit)]
  cases fails
  · right
    rcases h with h | h
    · rw [he] at h; cases h
    · simp only [Bool.false_eq_true, if_false, Writer.Available, List.length_nil,
        defaultBufSize, List.length_drop] at h ⊢
      split at h <;> simp <;> omega
  · left; rfl

theorem writeLoop_fuel (fails : Bool) (f1 : Nat) :
    ∀ (f2 : Nat) (b : Writer) (s : GoString), enoughFuel f1 b s → enoughFuel f2 b s →
      Writer.writeLoop fails f1 b s = Writer.writeLoop fails f2 b s := by
  induction f1 with
  | zero =>
    intro f2 b s h1 h2
    rcases h1 with h1 | h1
    · rw [writeLoop_err _ _ _ _ h1, writeLoop_err _ _ _ _ h1]
    · omega
  | succ f1 ih =>
    intro f2 b s h1 h2
    cases he : b.err
    · obtain ⟨f2, rfl⟩ : ∃ f, f2 = f + 1 := by
        rcases h2 with h2 | h2
        · rw [he] at h2; cases h2
        · exact ⟨f2 - 1, by omega⟩
      by_cases hfit : s.length > b.Available
      · rw [writeLoop_step fails f1 b s he hfit, writeLoop_step fails f2 b s he hfit]
        exact ih f2 _ _ (enoughFuel_step fails f1 b s he hfit h1)
          (enoughFuel_step fails f2 b s he hfit h2)
      · rw [writeLoop_fits fails f1 b s he hfit, writeLoop_fits fails f2 b s he hfit]
    · rw [writeLoop_err _ _ _ _ he, writeLoop_err _ _ _ _ he]

theorem enoughFuel_canonical (b : Writer) (s : GoString) : enoughFuel (s.length + 2) b s := by
  right
  split <;> omega

theorem enoughFuel_mono (f : Nat) (b : Writer) (p t : GoString)
    (h : enoughFuel f b (p ++ t)) : enoughFuel f b p := by
  rcases h with h | h
  · exact Or.inl h
  · right
    simp only [List.length_append] at h
    split at h <;> simp_all <;> omega

theorem writeLoop_append (fails : Bool) (f : Nat) :
    ∀ (b : Writer) (p t : GoString), enoughFuel f b (p ++ t) →
      ((Writer.writeLoop fails f b p).2 = true →
        Writer.writeLoop fails f b (p ++ t) = Writer.writeLoop fails f b p) ∧
      ((Writer.writeLoop fails f b p).2 = false →
        Writer.writeLoop fails (t.length + 2) (Writer.writeLoop fails f b p).1 t
          = Writer.writeLoop fails f b (p ++ t)) := by
  induction f with
  | zero =>
    intro b p t h
    rcases h with h | h
    · rw [writeLoop_err _ _ _ _ h, writeLoop_err _ _ _ _ h]
      exact ⟨fun _ => rfl, fun h' => by cases h'⟩
    · omega
  | succ f ih =>
    intro b p t h
    cases he : b.err
    · have hav : b.Available = defaultBufSize - b.buf.length := rfl
      by_cases hp : p.length > b.Available
      · -- `p` alone overflows the buffer: same first round
        have hpt : (p ++ t).length > b.Available := by simp only [List.length_append]; omega
        rw [writeLoop_step fails f b p he hp, writeLoop_step fails f b (p ++ t) he hpt,
          List.take_append_of_le_length (by omega), List.drop_append_of_le_length (by omega)]
        have h' := enoughFuel_step fails f b (p ++ t) he hpt h
        rw [List.take_append_of_le_length (by omega),
          List.drop_append_of_le_length (by omega)] at h'
        exact ih _ _ _ h'
      · rw [writeLoop_fits fails f b p he hp]
        refine ⟨fun h' => (by cases h'), fun _ => ?_⟩
        have hav2 : (Writer.mk (b.buf ++ p) b.err b.out).Available = b.Available - p.length := by
          simp only [Writer.Available, List.length_append]
          omega
        have he2 : (Writer.mk (b.buf ++ p) b.err b.out).err = false := he
        show Writer.writeLoop fails (t.length + 1 + 1) (Writer.mk (b.buf ++ p) b.err b.out) t = _
        by_cases hpt : (p ++ t).length > b.Available
        · have ht : t.length > (Writer.mk (b.buf ++ p) b.err b.out).Available := by
            rw [hav2]
            simp only [List.length_append] at hpt
            omega
          have h1 := enoughFuel_step fails (t.length + 1) (Writer.mk (b.buf ++ p) b.err b.out) t
            he2 ht (enoughFuel_canonical _ t)
          have h2 := enoughFuel_step fails f b (p ++ t) he hpt h
          rw [writeLoop_step fails (t.length + 1) (Writer.mk (b.buf ++ p) b.err b.out) t he2 ht,
            writeLoop_step fails f b (p ++ t) he hpt]
          have e1 : (p ++ t).take b.Available = p ++ t.take (b.Available - p.length) := by
            rw [List.take_append_eq_append_take, List.take_of_length_le (by omega)]
          have e2 : (p ++ t).drop b.Available = t.drop (b.Available - p.length) := by
            rw [List.drop_append_eq_append_drop, List.drop_of_length_le (by omega),
              List.nil_append]
          rw [hav2] at h1 ⊢
          rw [e1, e2] at h2 ⊢
          simp only [List.append_assoc] at h1 h2 ⊢
          exact writeLoop_fuel fails _ _ _ _ h1 h2
        · have ht : ¬ t.length > (Writer.mk (b.buf ++ p) b.err b.out).Available := by
            rw [hav2]
            simp only [List.length_append] at hpt
            omega
          rw [writeLoop_fits fails (t.length + 1) (Writer.mk (b.buf ++ p) b.err b.out) t he2 ht,
            writeLoop_fits fails f b (p ++ t) he hpt]
          simp only [List.append_assoc]
    · rw [writeLoop_err _ _ _ _ he, writeLoop_err _ _ _ _ he]
      exact ⟨fun _ => rfl, fun h' => by cases h'⟩

/-- A `WriteString` that returns an error has left the writer as a `WriteString` of a longer
string would. -/
theorem WriteString_append_err (fails : Bool) (b : Writer) (p t : GoString)
    (h : (b.WriteString fails p).2 = true) :
    b.WriteString fails (p ++ t) = b.WriteString fails p := by
  have hf := enoughFuel_canonical b (p ++ t)
  have e := writeLoop_fuel fails ((p ++ t).length + 2) (p.length + 2) b p
    (enoughFuel_mono _ b p t hf) (enoughFuel_canonical b p)
  have k := (writeLoop_append fails ((p ++ t).length + 2) b p t hf).1
  rw [e] at k
  exact k h

/-- Two `WriteString` in a row, the first without error, are one `WriteString` of the two
strings put together. -/
theorem WriteString_append_ok (fails : Bool) (b : Writer) (p t : GoString)
    (h : (b.WriteString fails p).2 = false) :
    (b.WriteString fails p).1.WriteString fails t = b.WriteString fails (p ++ t) := by
  have hf := enoughFuel_canonical b (p ++ t)
  have e := writeLoop_fuel fails ((p ++ t).length + 2) (p.length + 2) b p
    (enoughFuel_mono _ b p t hf) (enoughFuel_canonical b p)
  have k := (writeLoop_append fails ((p ++ t).length + 2) b p t hf).2
  rw [e] at k
  exact k h

theorem writeAll_eq (fails : Bool) (ps : List GoString) :
    ∀ (b : Writer), ps ≠ [] → b.writeAll fails ps = b.WriteString fails ps.flatten := by
  induction ps with
  | nil => intro b h; exact absurd rfl h
  | cons p ps ih =>
    intro b _
    rw [Writer.writeAll, List.flatten_cons]
    cases ps with
    | nil =>
      rw [List.flatten_nil, List.append_nil]
      rcases hw : b.WriteString fails p with ⟨b', _ | _⟩ <;> rfl
    | cons q qs =>
      rcases hw : b.WriteString fails p with ⟨b', _ | _⟩
      · have h2 : (b.WriteString fails p).2 = false := by rw [hw]
        have hk := WriteString_append_ok fails b p (q :: qs).flatten h2
        rw [hw] at hk
        simp only []
        rw [ih b' (by simp), ← hk]
      · have h2 : (b.WriteString fails p).2 = true := by rw [hw]
        rw [WriteString_append_err fails b p (q :: qs).flatten h2, hw]

theorem quotedPieces_flatten (field : GoString) :
    ∀ run : GoString, (quotedPieces run field).flatten
      = run ++ field.flatMap (fun c => if c == 34 then [34, 34] else [c]) := by
  induction field with
  | nil =>
    intro run
    rw [quotedPieces]
    split <;> simp_all
  | cons c rest ih =>
    intro run
    rw [quotedPieces]
    by_cases h34 : c = 34
    · subst h34
      simp [ih]
    · by_cases hcr : c = 13 ∨ c = 10
      · have : (c == 13 || c == 10) = true := by simpa using hcr
        simp [h34, this, ih]
      · have : (c == 13 || c == 10) = false := by simpa using hcr
        simp [h34, this, ih]

theorem fieldPieces_flatten (field : GoString) :
    (fieldPieces field).flatten = encodeField field := by
  unfold fieldPieces encodeField
  cases fieldNeedsQuotes field <;> simp [quotedPieces_flatten]

theorem recordPieces_flatten_succ (record : List GoString) :
    ∀ n : Nat, (recordPieces (n + 1) record).flatten
      = record.flatMap (fun f => 44 :: encodeField f) := by
  induction record with
  | nil => intro n; rfl
  | cons f fs ih =>
    intro n
    rw [recordPieces]
    simp [fieldPieces_flatten, ih]

theorem encodeFields_cons (f : GoString) (fs : List GoString) :
    encodeFields (f :: fs) = encodeField f ++ fs.flatMap (fun g => 44 :: encodeField g) := by
  induction fs generalizing f with
  | nil => simp [encodeFields]
  | cons g gs ih =>
    rw [encodeFields, ih g]
    · simp
    · simp

theorem recordPieces_flatten (record : List GoString) :
    (recordPieces 0 record ++ [[10]]).flatten = encodeRecord record := by
  cases record with
  | nil => rfl
  | cons f fs =>
    rw [recordPieces, encodeRecord, encodeFields_cons]
    simp [fieldPieces_flatten, recordPieces_flatten_succ]

/-- What `csv.Writer.Write` does to the buffer, to the stream and to its result is what one
`WriteString` of the CSV text of the record does. -/
theorem Write_eq (fails : Bool) (w : Writer) (record : List GoString) :
    w.Write fails record = w.WriteString fails (encodeRecord record) := by
  rw [Writer.Write, writeAll_eq fails _ w (by simp), recordPieces_flatten]

theorem encodeRecord_ne_nil (r : List GoString) : encodeRecord r ≠ [] := by
  simp [encodeRecord]

/-- Writing a record and flushing, on a stream that works: everything pending and the record
reach the stream, nothing stays in the buffer, no error. -/
theorem Write_Flush_healthy (b : Writer) (r : List GoString) (he : b.err = false)
    (hb : b.buf.length ≤ defaultBufSize) :
    (b.Write false r).2 = false ∧
      (b.Write false r).1.Flush false
        = { buf := [], err := false, out := b.out ++ b.buf ++ encodeRecord r } := by
  have hf : (encodeRecord r).length + (if b.buf.length = defaultBufSize then 1 else 0)
      < (encodeRecord r).length + 2 := by split <;> omega
  obtain ⟨r1, r2, r3, -⟩ := writeLoop_healthy _ b (encodeRecord r) he hb hf
  rw [Write_eq]
  refine ⟨r1, ?_⟩
  show (Writer.writeLoop false ((encodeRecord r).length + 2) b (encodeRecord r)).1.Flush false = _
  rw [Flush_healthy _ r2, r3]

theorem writeLoop_failing_out (fuel : Nat) :
    ∀ (b : Writer) (s : GoString), (Writer.writeLoop true fuel b s).1.out = b.out := by
  induction fuel with
  | zero => intro b s; rfl
  | succ fuel ih =>
    intro b s
    rw [Writer.writeLoop]
    split
    · rw [ih, Flush_failing_out]
    · split <;> rfl

/-- Once the `bufio.Writer` has its error, `Write` returns it and changes nothing. -/
theorem Write_err (fails : Bool) (b : Writer) (r : List GoString) (he : b.err = true) :
    b.Write fails r = (b, true) := by
  rw [Write_eq]
  exact writeLoop_err fails _ b _ he

theorem writeLoop_failing (fuel : Nat) (b : Writer) (s : GoString) (he : b.err = false)
    (hs : s ≠ []) (hfuel : 2 ≤ fuel) :
    (Writer.writeLoop true fuel b s).2 = (Writer.writeLoop true fuel b s).1.err ∧
      ((Writer.writeLoop true fuel b s).1.err = true ∨
        (Writer.writeLoop true fuel b s).1.buf ≠ []) := by
  obtain ⟨fuel, rfl⟩ : ∃ f, fuel = f + 1 := ⟨fuel - 1, by omega⟩
  rw [Writer.writeLoop]
  by_cases hfit : s.length > b.Available
  · have hcond : (decide (s.length > b.Available) && !b.err) = true := by simp [hfit, he]
    rw [if_pos hcond]
    have hne : b.buf ++ s.take (min b.Available s.length) ≠ [] := by
      have hav : b.Available = defaultBufSize - b.buf.length := rfl
      intro h
      have hl := congrArg List.length h
      simp only [List.length_append, List.length_take, List.length_nil, defaultBufSize] at hl hav
      have : 0 < s.length := List.length_pos.mpr hs
      omega
    have hfl := Flush_failing
      { buf := b.buf ++ s.take (min b.Available s.length), err := b.err, out := b.out } he hne
    simp only at hfl
    simp only [hfl]
    rw [writeLoop_err true fuel _ _ rfl]
    exact ⟨rfl, Or.inl rfl⟩
  · have hcond : (decide (s.length > b.Available) && !b.err) = false := by simp [hfit]
    rw [if_neg (by simp [hcond]), if_neg (by simp [he])]
    refine ⟨he.symm, Or.inr ?_⟩
    simp [hs]

/-- Writing a record and flushing, on a stream that fails: nothing reaches the stream and the
`bufio.Writer` has its error afterwards. -/
theorem Write_Flush_failing (b : Writer) (r : List GoString) (he : b.err = false) :
    ((b.Write true r).1.Flush true).err = true ∧
      ((b.Write true r).1.Flush true).out = b.out := by
  have h := writeLoop_failing ((encodeRecord r).length + 2) b (encodeRecord r) he
    (encodeRecord_ne_nil r) (by omega)
  rw [Write_eq]
  constructor
  · show ((Writer.writeLoop true ((encodeRecord r).length + 2) b (encodeRecord r)).1.Flush
      true).err = true
    rcases h.2 with h2 | h2
    · rw [Flush_err _ _ h2, h2]
    · cases h3 : (Writer.writeLoop true ((encodeRecord r).length + 2) b (encodeRecord r)).1.err
      · rw [Flush_failing _ h3 h2]
      · rw [Flush_err _ _ h3, h3]
  · rw [Flush_failing_out]
    exact writeLoop_failing_out _ b _

/-! ## The loop of `exportCharges` -/

set_option maxRecDepth 100000 in
theorem Write_header (fails : Bool) :
    NewWriter.Write fails header
      = ({ buf := encodeRecord header, err := false, out := [] }, false) := by
  cases fails <;> decide

set_option maxRecDepth 100000 in
theorem header_fits : (encodeRecord header).length ≤ defaultBufSize := by decide

set_option maxRecDepth 100000 in
theorem exportCharges_csv (env : Env) (charges : List Charge) :
    exportCharges env true charges
      = resume env 0 { buf := encodeRecord header, err := false, out := [] } charges := by
  have h := Write_header (env.stdoutFails 0)
  unfold exportCharges resume
  rw [if_neg (show ¬ ((!true) = true) by decide)]
  dsimp only
  rw [h]

theorem chargeRows_cons (env : Env) (k : Nat) (c : Charge) (rest : List Charge)
    (rows : List (List GoString)) (h : chargeRows env k (c :: rest) = some rows) :
    ∃ row rows', rows = row :: rows' ∧ chargeRow (env.now k) c = some row ∧
      chargeRows env (k + 1) rest = some rows' := by
  simp only [chargeRows] at h
  split at h
  · rename_i row rows' h1 h2
    simp only [Option.some.injEq] at h
    exact ⟨row, rows', h.symm, h1, h2⟩
  · cases h

theorem chargeRows_length (env : Env) (charges : List Charge) :
    ∀ (k : Nat) (rows : List (List GoString)), chargeRows env k charges = some rows →
      rows.length = charges.length := by
  induction charges with
  | nil => intro k rows h; simp only [chargeRows, Option.some.injEq] at h; subst h; rfl
  | cons c rest ih =>
    intro k rows h
    obtain ⟨row, rows', rfl, -, h2⟩ := chargeRows_cons env k c rest rows h
    simp [ih (k + 1) rows' h2]

theorem chargeRows_append (env : Env) (pre post : List Charge) :
    ∀ (k : Nat) (rows : List (List GoString)), chargeRows env k (pre ++ post) = some rows →
      chargeRows env k pre = some (rows.take pre.length) ∧
      chargeRows env (k + pre.length) post = some (rows.drop pre.length) := by
  induction pre with
  | nil => intro k rows h; exact ⟨rfl, by simpa using h⟩
  | cons c rest ih =>
    intro k rows h
    obtain ⟨row, rows', rfl, h1, h2⟩ := chargeRows_cons env k c (rest ++ post) rows h
    obtain ⟨i1, i2⟩ := ih (k + 1) rows' h2
    refine ⟨?_, ?_⟩
    · simp only [chargeRows, h1, i1, List.length_cons, List.take_succ_cons]
    · rw [show k + (c :: rest).length = k + 1 + rest.length by simp; omega]
      simpa using i2

/-- The loop on a stream that works, through a non-empty run of records whose rows exist:
the loop reaches the records after them with an empty buffer, no error, and with what was
pending and the rows of the run on the stream. -/
theorem exportLoop_healthy_append (env : Env) (pre post : List Charge) :
    ∀ (k : Nat) (w : Writer) (n : Nat) (rows : List (List GoString)),
      chargeRows env k pre = some rows →
      (∀ i, i < pre.length → env.stdoutFails (k + i) = false) →
      w.err = false → w.buf.length ≤ defaultBufSize → pre ≠ [] →
      exportLoop env k (pre ++ post) w n
        = exportLoop env (k + pre.length) post
            { buf := [], err := false, out := w.out ++ w.buf ++ encodeRecords rows }
            (n + pre.length) := by
  induction pre with
  | nil => intro k w n rows _ _ _ _ h; exact absurd rfl h
  | cons c rest ih =>
    intro k w n rows hrows hok he hb _
    obtain ⟨row, rows', rfl, h1, h2⟩ := chargeRows_cons env k c rest rows hrows
    have hk : env.stdoutFails k = false := by simpa using hok 0 (by simp)
    obtain ⟨w1, w2⟩ := Write_Flush_healthy w row he hb
    rw [List.cons_append, exportLoop]
    simp only [h1, hk]
    rw [show (w.Write false row) = ((w.Write false row).1, (w.Write false row).2) from rfl]
    simp only [w1, w2, Bool.false_eq_true, if_false]
    have e1 : k + (c :: rest).length = k + 1 + rest.length := by simp; omega
    have e2 : n + (c :: rest).length = n + 1 + rest.length := by simp; omega
    rw [e1, e2]
    cases rest with
    | nil =>
      simp only [chargeRows, Option.some.injEq] at h2
      subst h2
      simp [encodeRecords]
    | cons c' rest' =>
      rw [ih (k + 1) _ (n + 1) rows' h2 (fun i hi => by
        have := hok (i + 1) (by simpa using hi)
        rwa [show k + 1 + i = k + (i + 1) by omega]) rfl (by simp) (by simp)]
      simp only [encodeRecords, List.flatMap_cons, List.append_nil, List.append_assoc]

/-- The loop on a stream that works, all rows existing: it ends with `return nil`, every row
has been handed to `Write`, and the stream holds what was pending and all the rows. -/
theorem exportLoop_healthy (env : Env) (charges : List Charge) (k : Nat) (w : Writer) (n : Nat)
    (rows : List (List GoString)) (hrows : chargeRows env k charges = some rows)
    (hok : ∀ i, i < charges.length → env.stdoutFails (k + i) = false)
    (he : w.err = false) (hb : w.buf.length ≤ defaultBufSize) (hne : charges ≠ []) :
    exportLoop env k charges w n
      = (.returnNil, { buf := [], err := false, out := w.out ++ w.buf ++ encodeRecords rows },
          n + charges.length) := by
  have h := exportLoop_healthy_append env charges [] k w n rows hrows hok he hb hne
  rw [List.append_nil] at h
  rw [h, exportLoop]

/-- The loop on a stream that fails, with two records or more to go whose rows exist: it
ends with `return err` at the first or at the second of them, and nothing reaches the
stream. -/
theorem exportLoop_failing (env : Env) (c c' : Charge) (rest : List Charge) (k : Nat)
    (w : Writer) (n : Nat) (row row' : List GoString)
    (h1 : chargeRow (env.now k) c = some row)
    (h2 : chargeRow (env.now (k + 1)) c' = some row')
    (hfail : env.stdoutFails k = true) (he : w.err = false) :
    ∃ w' m, exportLoop env k (c :: c' :: rest) w n = (.returnErr, w', m) ∧ w'.out = w.out ∧
      m ≤ n + 2 := by
  obtain ⟨f1, f2⟩ := Write_Flush_failing w row he
  rw [exportLoop]
  simp only [h1, hfail]
  rw [show (w.Write true row) = ((w.Write true row).1, (w.Write true row).2) from rfl]
  simp only []
  cases herr : (w.Write true row).2
  · simp only [Bool.false_eq_true, if_false]
    rw [exportLoop]
    simp only [h2]
    rw [Write_err _ _ _ f1]
    simp only [if_true]
    exact ⟨_, _, rfl, by rw [Flush_err _ _ f1]; exact f2, by omega⟩
  · simp only [if_true]
    exact ⟨_, _, rfl, f2, by omega⟩

theorem chargeRow_length (now : Time) (c : Charge) (row : List GoString)
    (h : chargeRow now c = some row) : row.length = 16 := by
  simp only [chargeRow] at h
  split at h
  · cases h
  · simp only [Option.some.injEq] at h
    subst h
    rfl

theorem chargeRows_all_length (env : Env) (charges : List Charge) :
    ∀ (k : Nat) (rows : List (List GoString)), chargeRows env k charges = some rows →
      ∀ r ∈ rows, r.length = 16 := by
  induction charges with
  | nil =>
    intro k rows h r hr
    simp only [chargeRows, Option.some.injEq] at h
    subst h
    cases hr
  | cons c rest ih =>
    intro k rows h r hr
    obtain ⟨row, rows', rfl, h1, h2⟩ := chargeRows_cons env k c rest rows h
    rcases List.mem_cons.mp hr with rfl | hr
    · exact chargeRow_length _ _ _ h1
    · exact ih (k + 1) rows' h2 r hr

theorem encodeRecords_cons (r : List GoString) (rs : List (List GoString)) :
    encodeRecords (r :: rs) = encodeRecord r ++ encodeRecords rs := by
  simp [encodeRecords]

theorem encodeField_no_lf (f : GoString) (h : 10 ∉ f) : 10 ∉ encodeField f := by
  unfold encodeField
  split
  · intro hm
    simp only [List.cons_append, List.mem_cons, List.mem_append, List.mem_flatMap,
      List.mem_singleton, List.not_mem_nil, or_false] at hm
    rcases hm with hm | ⟨c, hc, hm⟩ | hm
    · omega
    · split at hm
      · simp at hm
      · simp only [List.mem_singleton] at hm
        subst hm
        exact h hc
    · omega
  · exact h

theorem encodeFields_no_lf (r : List GoString) (h : ∀ f ∈ r, 10 ∉ f) : 10 ∉ encodeFields r := by
  induction r with
  | nil => simp [encodeFields]
  | cons f fs ih =>
    have hf := encodeField_no_lf f (h f (by simp))
    have hfs := ih (fun g hg => h g (by simp [hg]))
    cases fs with
    | nil => simpa [encodeFields] using hf
    | cons g gs =>
      rw [encodeFields]
      · intro hm
        simp only [List.mem_append, List.mem_cons] at hm
        rcases hm with hm | hm | hm
        · exact hf hm
        · omega
        · exact hfs hm
      · simp

theorem lineCount_encodeRecord (r : List GoString) (h : ∀ f ∈ r, 10 ∉ f) :
    lineCount (encodeRecord r) = 1 := by
  have h0 := List.count_eq_zero.mpr (encodeFields_no_lf r h)
  simp [lineCount, encodeRecord, List.count_append, h0]

theorem lineCount_encodeRecords (rs : List (List GoString))
    (h : ∀ r ∈ rs, ∀ f ∈ r, 10 ∉ f) : lineCount (encodeRecords rs) = rs.length := by
  induction rs with
  | nil => rfl
  | cons r rs ih =>
    have h1 := lineCount_encodeRecord r (h r (by simp))
    have h2 := ih (fun r' hr' => h r' (by simp [hr']))
    rw [encodeRecords_cons]
    simp only [lineCount, List.count_append, List.length_cons] at h1 h2 ⊢
    omega

set_option maxRecDepth 100000 in
theorem header_no_lf : ∀ f ∈ header, 10 ∉ f := by decide

/-- C2 (the code on the empty sequence): in CSV mode and with no record, `exportCharges`
returns nil with nothing at all on the output stream; the header row is still in the buffer
of the `csv.Writer`, which is never flushed. -/
theorem C2_empty_export_leaves_header_buffered (env : Env) :
    exportCharges env true []
      = { exit := .returnNil, out := [], buffered := encodeRecord header, rows := 0 } ∧
    lineCount (exportCharges env true []).out = 0 := by
  have h : exportCharges env true []
      = { exit := .returnNil, out := [], buffered := encodeRecord header, rows := 0 } := by
    rw [exportCharges_csv]
    rfl
  exact ⟨h, by rw [h]; rfl⟩

/-- C4 (amended): for every non-empty sequence of records whose card expiries all parse, on
an output stream that accepts the writes, `exportCharges` in CSV mode returns nil and the
stream holds exactly `1 + len(records)` CSV records, the header first and then the row of
every record in input order, each of exactly 16 fields, with nothing left in the buffer;
these are `1 + len(records)` lines when no field contains a line feed. -/
theorem C4_csv_records_and_columns (env : Env) (charges : List Charge)
    (rows : List (List GoString)) (hne : charges ≠ [])
    (hrows : chargeRows env 0 charges = some rows)
    (hok : ∀ i, i < charges.length → env.stdoutFails i = false) :
    exportCharges env true charges
      = { exit := .returnNil, out := encodeRecords (header :: rows), buffered := [],
          rows := charges.length } ∧
    (header :: rows).length = 1 + charges.length ∧
    (∀ r ∈ header :: rows, r.length = 16) ∧
    ((∀ r ∈ rows, ∀ f ∈ r, 10 ∉ f) →
      lineCount (exportCharges env true charges).out = 1 + charges.length) := by
  have hrun : exportCharges env true charges
      = { exit := .returnNil, out := encodeRecords (header :: rows), buffered := [],
          rows := charges.length } := by
    rw [exportCharges_csv, resume,
      exportLoop_healthy env charges 0 _ 0 rows hrows (by simpa using hok) rfl header_fits hne]
    simp only [List.nil_append, encodeRecords_cons, Nat.zero_add]
  have hlen : (header :: rows).length = 1 + charges.length := by
    rw [List.length_cons, chargeRows_length env charges 0 rows hrows]
    omega
  refine ⟨hrun, hlen, ?_, ?_⟩
  · intro r hr
    rcases List.mem_cons.mp hr with rfl | hr
    · rfl
    · exact chargeRows_all_length env charges 0 rows hrows r hr
  · intro hlf
    rw [hrun]
    show lineCount (encodeRecords (header :: rows)) = _
    rw [lineCount_encodeRecords (header :: rows) (by
      intro r hr
      rcases List.mem_cons.mp hr with rfl | hr
      · exact header_no_lf
      · exact hlf r hr), hlen]

/-- On a stream that accepts the writes the rows are written and flushed in record order,
one flush per row: for every `k` with `1 <= k <= len(records)` such that the card expiries
of the first `k` records parse, after `k` rounds of the loop the stream holds exactly the
header followed by the rows of the first `k` records in input order and the buffer is
empty; the run goes on from that state with the records that are left. -/
theorem exportCharges_flushed_in_record_order (env : Env) (charges : List Charge) (k : Nat)
    (rows : List (List GoString)) (hk1 : 1 ≤ k) (hk : k ≤ charges.length)
    (hrows : chargeRows env 0 (charges.take k) = some rows)
    (hok : ∀ i, i < k → env.stdoutFails i = false) :
    exportCharges env true (charges.take k)
      = { exit := .returnNil, out := encodeRecords (header :: rows), buffered := [],
          rows := k } ∧
    exportCharges env true charges
      = resume env k { buf := [], err := false, out := encodeRecords (header :: rows) }
          (charges.drop k) := by
  have hlen : (charges.take k).length = k := by simp [hk]
  have hne : charges.take k ≠ [] := by
    intro h
    rw [h] at hlen
    simp at hlen
    omega
  refine ⟨?_, ?_⟩
  · rw [exportCharges_csv, resume,
      exportLoop_healthy env (charges.take k) 0 _ 0 rows hrows
        (by simpa [hlen] using hok) rfl header_fits hne]
    simp only [List.nil_append, encodeRecords_cons, Nat.zero_add, hlen]
  · have h := exportLoop_healthy_append env (charges.take k) (charges.drop k) 0
      { buf := encodeRecord header, err := false, out := [] } 0 rows hrows
      (by simpa [hlen] using hok) rfl header_fits hne
    rw [List.take_append_drop, hlen] at h
    rw [exportCharges_csv, resume, resume, h]
    simp only [List.nil_append, encodeRecords_cons, Nat.zero_add]

/-- What the code does when the stream breaks with two records or more to go: for every
sequence of records whose card expiries all parse and every `N` with `1 <= N` and
`N + 2 <= len(records)`, if the output stream accepts the writes until `N` rows have been
written and flushed and rejects every write from then on, `exportCharges` in CSV mode
returns an error, hands no row after record `N + 1` (counted from 0) to the writer, and the
stream holds exactly the header followed by the first `N` rows. -/
theorem exportCharges_error_at_later_row (env : Env) (charges : List Charge) (N : Nat)
    (rows : List (List GoString)) (hN1 : 1 ≤ N) (hN : N + 2 ≤ charges.length)
    (hrows : chargeRows env 0 charges = some rows)
    (hfail : ∀ i, env.stdoutFails i = decide (N ≤ i)) :
    (exportCharges env true charges).exit = .returnErr ∧
    (exportCharges env true charges).out = encodeRecords (header :: rows.take N) ∧
    (exportCharges env true charges).rows ≤ N + 2 := by
  have hlen : (charges.take N).length = N := by simp; omega
  have hne : charges.take N ≠ [] := by
    intro h
    rw [h] at hlen
    simp at hlen
    omega
  have hsplit : chargeRows env 0 (charges.take N ++ charges.drop N) = some rows := by
    rw [List.take_append_drop]; exact hrows
  obtain ⟨hpre, hpost⟩ := chargeRows_append env (charges.take N) (charges.drop N) 0 rows hsplit
  rw [hlen] at hpre hpost
  rw [Nat.zero_add] at hpost
  have hok : ∀ i, i < (charges.take N).length → env.stdoutFails (0 + i) = false := by
    intro i hi
    rw [hlen] at hi
    rw [hfail]
    simp
    omega
  have h := exportLoop_healthy_append env (charges.take N) (charges.drop N) 0
    { buf := encodeRecord header, err := false, out := [] } 0 (rows.take N) hpre hok rfl
    header_fits hne
  rw [List.take_append_drop, hlen, Nat.zero_add] at h
  -- the two records after the first `N`
  obtain ⟨c, c', rest, hdrop⟩ : ∃ c c' rest, charges.drop N = c :: c' :: rest := by
    have hl : (charges.drop N).length = charges.length - N := by simp
    rcases hd : charges.drop N with _ | ⟨c, _ | ⟨c', rest⟩⟩
    · rw [hd] at hl; simp at hl; omega
    · rw [hd] at hl; simp at hl; omega
    · exact ⟨c, c', rest, rfl⟩
  rw [hdrop] at hpost h
  obtain ⟨row, rows1, e1, hr1, hpost1⟩ := chargeRows_cons env N c (c' :: rest) _ hpost
  obtain ⟨row', rows2, -, hr2, -⟩ := chargeRows_cons env (N + 1) c' rest _ hpost1
  obtain ⟨w', m, hloop, hout, hm⟩ := exportLoop_failing env c c' rest N
    { buf := [], err := false, out := [] ++ encodeRecord header ++ encodeRecords (rows.take N) }
    N row row' hr1 hr2 (by rw [hfail]; simp) rfl
  have hrun : exportCharges env true charges
      = { exit := .returnErr, out := w'.out, buffered := w'.buf, rows := m } := by
    rw [exportCharges_csv, resume, h, hloop]
  rw [hrun]
  refine ⟨rfl, ?_, hm⟩
  simp only [hout, List.nil_append, encodeRecords_cons]

/-! ## The row of a charge -/

theorem fmtInteger_month (m : Int) (h1 : 1 ≤ m) (h2 : m ≤ 12) :
    fmtInteger m (some 2) true = [48 + m.toNat / 10 % 10, 48 + m.toNat % 10] := by
  rcases month_cases m h1 h2 with rfl | rfl | rfl | rfl | rfl | rfl | rfl | rfl | rfl | rfl |
    rfl | rfl <;> decide

theorem fmtDigits_four (n : Nat) (h1 : 1000 ≤ n) (h2 : n ≤ 9999) :
    fmtDigits 20 n [] = [48 + n / 1000 % 10, 48 + n / 100 % 10, 48 + n / 10 % 10, 48 + n % 10] := by
  have a1 : n ≥ 10 := by omega
  have a2 : n / 10 ≥ 10 := by omega
  have a3 : n / 10 / 10 ≥ 10 := by omega
  have a4 : ¬ n / 10 / 10 / 10 ≥ 10 := by omega
  rw [fmtDigits, if_pos a1, fmtDigits, if_pos a2, fmtDigits, if_pos a3, fmtDigits, if_neg a4]
  simp only [List.cons.injEq, and_true]
  refine ⟨?_, ?_, ?_, ?_⟩ <;> omega

theorem fmtInteger_year (y : Int) (h1 : 1000 ≤ y) (h2 : y ≤ 9999) :
    fmtInteger y none false =
      [48 + y.toNat / 1000 % 10, 48 + y.toNat / 100 % 10, 48 + y.toNat / 10 % 10,
        48 + y.toNat % 10] := by
  have hn : y.natAbs = y.toNat := by omega
  have hneg : ¬ y < 0 := by omega
  simp only [fmtInteger, hneg, hn, fmtDigits_four y.toNat (by omega) (by omega)]
  simp

/-- The text `fmt.Sprintf("%02d/%d", m, y)` for a month in 1..12 and a year of four digits is the
string `MM/YYYY` of that month and year. -/
theorem sprintMonthYear_eq (m y : Int) (hm1 : 1 ≤ m) (hm2 : m ≤ 12) (hy1 : 1000 ≤ y)
    (hy2 : y ≤ 9999) :
    sprintMonthYear m y = monthYearString m.toNat y.toNat := by
  rw [sprintMonthYear, fmtInteger_month m hm1 hm2, fmtInteger_year y hy1 hy2, str_slash]
  rfl

theorem isMonthYear_monthYearString (m y : Nat) (hm1 : 1 ≤ m) (hm2 : m ≤ 12) :
    isMonthYear (monthYearString m y) = true := by
  have e : ∀ d : Nat, d < 10 → digitByte (48 + d) = true := by
    intro d hd
    simp only [digitByte, Bool.and_eq_true, decide_eq_true_eq]
    omega
  simp only [isMonthYear, monthYearString, e _ (Nat.mod_lt _ (by norm_num : 10 > 0)),
    Bool.and_self, Bool.true_and, beq_self_eq_true, Bool.and_eq_true, decide_eq_true_eq]
  omega

theorem monthYearString_inj (m y m' y' : Nat) (hm : m ≤ 12) (hy : y ≤ 9999) (hm' : m' ≤ 12)
    (hy' : y' ≤ 9999) (h : monthYearString m y = monthYearString m' y') : m = m' ∧ y = y' := by
  simp only [monthYearString, List.cons.injEq, and_true, true_and] at h
  omega

/-- The expiry of a card with month in 1..12 and a year of four digits parses, to the first
instant of that month. -/
theorem parse_card_expiry (m y : Int) (hm1 : 1 ≤ m) (hm2 : m ≤ 12) (hy1 : 1000 ≤ y)
    (hy2 : y ≤ 9999) :
    parseMonthSelect (sprintMonthYear m y) = .ok (Date y m 1 0 0 0) := by
  rw [sprintMonthYear_eq m y hm1 hm2 hy1 hy2]
  obtain ⟨m', y', a1, a2, a3, a4, a5⟩ := parse_isMonthYear _
    (isMonthYear_monthYearString m.toNat y.toNat (by omega) (by omega))
  obtain ⟨e1, e2⟩ := monthYearString_inj m.toNat y.toNat m' y' (by omega) (by omega) a2 a3 a4
  rw [a5, ← e1, ← e2]
  have k1 : ((m.toNat : Nat) : Int) = m := by omega
  have k2 : ((y.toNat : Nat) : Int) = y := by omega
  rw [k1, k2]

theorem chargeRow_no_card (now : Time) (c : Charge) (h : c.Source.Card = none) :
    chargeRow now c = some (rowWith c now [] []) := by
  simp only [chargeRow, h]
  rfl

theorem chargeRow_card (now : Time) (c : Charge) (card : Card) (t : Time)
    (h : c.Source.Card = some card)
    (hp : parseMonthSelect (sprintMonthYear card.Month card.Year) = .ok t) :
    chargeRow now c = some (rowWith c t card.Brand card.LastFour) := by
  simp only [chargeRow, h, hp]
  rfl

theorem chargeRow_card_panic (now : Time) (c : Charge) (card : Card) (e : ParseError)
    (h : c.Source.Card = some card)
    (hp : parseMonthSelect (sprintMonthYear card.Month card.Year) = .error e) :
    chargeRow now c = none := by
  simp only [chargeRow, h, hp]

/-- C7: for every record without a card payment source, `exportCharges` makes a row (of 16
fields) whose `cc_brand` and `cc_last_four` are empty and whose `cc_expiry` is the decimal
text of the Unix seconds of the wall-clock time read for that row. -/
theorem C7_row_without_card (env : Env) (k : Nat) (c : Charge) (h : c.Source.Card = none) :
    ∃ row, chargeRow (env.now k) c = some row ∧ row.length = 16 ∧
      header.get? 10 = some (str "cc_brand") ∧ row.get? 10 = some [] ∧
      header.get? 11 = some (str "cc_last_four") ∧ row.get? 11 = some [] ∧
      header.get? 12 = some (str "cc_expiry") ∧
      row.get? 12 = some (sprintD (env.now k).Unix) := by
  exact ⟨_, chargeRow_no_card _ c h, rfl, by decide, rfl, by decide, rfl, by decide, rfl⟩

theorem C7_row_without_card_witness :
    sampleChargeNoCard.Source.Card = none ∧
      ∃ row, chargeRow (envHealthy.now 0) sampleChargeNoCard = some row ∧ row.length = 16 ∧
        header.get? 10 = some (str "cc_brand") ∧ row.get? 10 = some [] ∧
        header.get? 11 = some (str "cc_last_four") ∧ row.get? 11 = some [] ∧
        header.get? 12 = some (str "cc_expiry") ∧
        row.get? 12 = some (sprintD (envHealthy.now 0).Unix) :=
  ⟨rfl, C7_row_without_card envHealthy 0 sampleChargeNoCard rfl⟩

/-- C8: for every record, the field `invoice_num` (column 4) of the row `exportCharges`
makes for it is the empty string when the record has no invoice and the identifier of the
invoice, unchanged, when it has one. -/
theorem C8_invoice_num (now : Time) (c : Charge) (row : List GoString)
    (h : chargeRow now c = some row) :
    header.get? 3 = some (str "invoice_num") ∧
    row.get? 3 = some (invoiceId c) ∧
    (c.Invoice = none → row.get? 3 = some []) ∧
    (∀ invoice, c.Invoice = some invoice → row.get? 3 = some invoice.ID) := by
  have h3 : row.get? 3 = some (invoiceId c) := by
    cases hcard : c.Source.Card with
    | none =>
      rw [chargeRow_no_card now c hcard, Option.some.injEq] at h
      subst h
      rfl
    | some card =>
      cases hp : parseMonthSelect (sprintMonthYear card.Month card.Year) with
      | error e => rw [chargeRow_card_panic now c card e hcard hp] at h; cases h
      | ok t =>
        rw [chargeRow_card now c card t hcard hp, Option.some.injEq] at h
        subst h
        rfl
  refine ⟨by decide, h3, ?_, ?_⟩
  · intro hn
    rw [h3, invoiceId, hn]
  · intro invoice hs
    rw [h3, invoiceId, hs]

set_option maxRecDepth 100000 in
theorem C8_invoice_num_witness :
    (∃ row, chargeRow ⟨1500000000⟩ sampleCharge = some row ∧
      row.get? 3 = some (str "in_7")) ∧
    (∃ row, chargeRow ⟨1500000000⟩ sampleChargeNoCard = some row ∧ row.get? 3 = some []) :=
  ⟨⟨_, rfl, (C8_invoice_num ⟨1500000000⟩ sampleCharge _ rfl).2.2.2 ⟨str "in_7"⟩ rfl⟩,
    ⟨_, rfl, (C8_invoice_num ⟨1500000000⟩ sampleChargeNoCard _ rfl).2.2.1 rfl⟩⟩

/-- C9: for every record with a card of expiry month `m` and year `y`: whenever a row is
made, its `cc_brand` and `cc_last_four` are the brand and the last four digits of the card
and its `cc_expiry` is the decimal text of the Unix seconds of the timestamp parsed from
`m/y`; and whenever `1 <= m <= 12` and `y` has four decimal digits the parse succeeds (no
panic), the row is made and its `cc_expiry` is that of `y-m-01T00:00:00` UTC. -/
theorem C9_row_with_card (now : Time) (c : Charge) (card : Card)
    (hc : c.Source.Card = some card) :
    (∀ row, chargeRow now c = some row →
      row.get? 10 = some card.Brand ∧ row.get? 11 = some card.LastFour ∧
      ∃ ccExpiry, parseMonthSelect (sprintMonthYear card.Month card.Year) = .ok ccExpiry ∧
        row.get? 12 = some (sprintD ccExpiry.Unix)) ∧
    (1 ≤ card.Month → card.Month ≤ 12 → 1000 ≤ card.Year → card.Year ≤ 9999 →
      ∃ row, chargeRow now c = some row ∧
        row.get? 10 = some card.Brand ∧ row.get? 11 = some card.LastFour ∧
        row.get? 12 = some (sprintD (Date card.Year card.Month 1 0 0 0).Unix)) := by
  constructor
  · intro row h
    cases hp : parseMonthSelect (sprintMonthYear card.Month card.Year) with
    | error e => rw [chargeRow_card_panic now c card e hc hp] at h; cases h
    | ok t =>
      rw [chargeRow_card now c card t hc hp, Option.some.injEq] at h
      subst h
      exact ⟨rfl, rfl, t, rfl, rfl⟩
  · intro hm1 hm2 hy1 hy2
    have hp := parse_card_expiry card.Month card.Year hm1 hm2 hy1 hy2
    exact ⟨_, chargeRow_card now c card _ hc hp, rfl, rfl, rfl⟩

set_option maxRecDepth 100000 in
theorem C9_row_with_card_witness :
    sampleCharge.Source.Card = some ⟨8, 2019, str "Visa", str "4242"⟩ ∧
      ∃ row, chargeRow ⟨1500000000⟩ sampleCharge = some row ∧
        row.get? 10 = some (str "Visa") ∧ row.get? 11 = some (str "4242") ∧
        row.get? 12 = some (sprintD (Date 2019 8 1 0 0 0).Unix) :=
  ⟨rfl, (C9_row_with_card ⟨1500000000⟩ sampleCharge ⟨8, 2019, str "Visa", str "4242"⟩ rfl).2
    (by decide) (by decide) (by decide) (by decide)⟩

/-! ## Runs on sample records -/

set_option maxRecDepth 100000 in
/-- C4 as stated fails where a card expiry does not parse: with a good record followed by a
record whose card has month 13, the run panics with two lines on the stream, not three. -/
theorem C4_fails_on_unparsable_expiry :
    (exportCharges envHealthy true [sampleCharge, sampleChargeBadCard]).exit = .panic ∧
    (exportCharges envHealthy true [sampleCharge, sampleChargeBadCard]).out
      = encodeRecords [header, sampleRow] ∧
    lineCount (exportCharges envHealthy true [sampleCharge, sampleChargeBadCard]).out = 2 ∧
    lineCount (exportCharges envHealthy true [sampleCharge, sampleChargeBadCard]).out
      ≠ 1 + [sampleCharge, sampleChargeBadCard].length := by
  decide

set_option maxRecDepth 100000 in
theorem C4_csv_records_and_columns_witness :
    [sampleCharge, sampleChargeNoCard] ≠ [] ∧
    chargeRows envHealthy 0 [sampleCharge, sampleChargeNoCard]
      = some [sampleRow, sampleRowNoCard] ∧
    (∀ i, i < [sampleCharge, sampleChargeNoCard].length → envHealthy.stdoutFails i = false) ∧
    exportCharges envHealthy true [sampleCharge, sampleChargeNoCard]
      = { exit := .returnNil, out := encodeRecords [header, sampleRow, sampleRowNoCard],
          buffered := [], rows := 2 } :=
  ⟨by decide, by decide, fun _ _ => rfl,
    (C4_csv_records_and_columns envHealthy [sampleCharge, sampleChargeNoCard]
      [sampleRow, sampleRowNoCard] (by decide) (by decide) (fun _ _ => rfl)).1⟩

set_option maxRecDepth 100000 in
/-- C10 (the code at the failing inputs), for one record. At `k = 0`, before the first round
of the loop, nothing is on the stream and the header row is in the buffer: the header is
written but not flushed. At `k = 1` on a stream that rejects the writes, the round
completes with `err == nil` - `w.Write` only fills the buffer, and the error of
`w.Flush()` is never read - and `exportCharges` returns nil with nothing on the stream,
the header and the row still in the buffer. -/
theorem C10_undelivered_after_completed_rounds :
    0 ≤ [sampleCharge].length ∧
    (exportCharges envHealthy true ([sampleCharge].take 0)).exit = .returnNil ∧
    (exportCharges envHealthy true ([sampleCharge].take 0)).out = [] ∧
    (exportCharges envHealthy true ([sampleCharge].take 0)).out ≠ encodeRecords [header] ∧
    (exportCharges envHealthy true ([sampleCharge].take 0)).buffered = encodeRecord header ∧
    (exportCharges envHealthy true ([sampleCharge].take 0)).buffered ≠ [] ∧
    1 ≤ [sampleCharge].length ∧
    (∀ i, (envFailingAfter 0).stdoutFails i = true) ∧
    chargeRow ((envFailingAfter 0).now 0) sampleCharge = some sampleRow ∧
    (exportCharges (envFailingAfter 0) true ([sampleCharge].take 1)).exit = .returnNil ∧
    (exportCharges (envFailingAfter 0) true ([sampleCharge].take 1)).rows = 1 ∧
    (exportCharges (envFailingAfter 0) true ([sampleCharge].take 1)).out = [] ∧
    (exportCharges (envFailingAfter 0) true ([sampleCharge].take 1)).out
      ≠ encodeRecords [header, sampleRow] ∧
    (exportCharges (envFailingAfter 0) true ([sampleCharge].take 1)).buffered
      = encodeRecords [header, sampleRow] :=
  ⟨by decide, by decide, by decide, by decide, by decide, by decide, by decide,
    fun _ => decide_eq_true (Nat.zero_le _), by decide, by decide, by decide, by decide,
    by decide, by decide⟩

set_option maxRecDepth 100000 in
theorem exportCharges_flushed_in_record_order_witness :
    1 ≤ 1 ∧ 1 ≤ [sampleCharge, sampleChargeNoCard].length ∧
    chargeRows envHealthy 0 ([sampleCharge, sampleChargeNoCard].take 1) = some [sampleRow] ∧
    (∀ i, i < 1 → envHealthy.stdoutFails i = false) ∧
    exportCharges envHealthy true ([sampleCharge, sampleChargeNoCard].take 1)
      = { exit := .returnNil, out := encodeRecords [header, sampleRow], buffered := [],
          rows := 1 } ∧
    exportCharges envHealthy true [sampleCharge, sampleChargeNoCard]
      = resume envHealthy 1 { buf := [], err := false, out := encodeRecords [header, sampleRow] }
          ([sampleCharge, sampleChargeNoCard].drop 1) :=
  ⟨by decide, by decide, by decide, fun _ _ => rfl,
    exportCharges_flushed_in_record_order envHealthy [sampleCharge, sampleChargeNoCard] 1 [sampleRow]
      (by decide) (by decide) (by decide) (fun _ _ => rfl)⟩

set_option maxRecDepth 100000 in
/-- When the stream starts failing after the only row has been written and flushed, nothing
is written any more and `exportCharges` returns nil. -/
theorem exportCharges_no_error_when_all_rows_out :
    1 ≤ [sampleCharge].length ∧
    (∀ i, (envFailingAfter 1).stdoutFails i = decide (1 ≤ i)) ∧
    (exportCharges (envFailingAfter 1) true [sampleCharge]).exit = .returnNil ∧
    (exportCharges (envFailingAfter 1) true [sampleCharge]).exit ≠ .returnErr ∧
    (exportCharges (envFailingAfter 1) true [sampleCharge]).out
      = encodeRecords [header, sampleRow] :=
  ⟨by decide, fun _ => rfl, by decide, by decide, by decide⟩

set_option maxRecDepth 100000 in
theorem exportCharges_error_at_later_row_witness :
    1 ≤ 1 ∧ 1 + 2 ≤ [sampleCharge, sampleChargeNoCard, sampleCharge].length ∧
    chargeRows (envFailingAfter 1) 0 [sampleCharge, sampleChargeNoCard, sampleCharge]
      = some [sampleRow, sampleRowNoCard, sampleRow] ∧
    (∀ i, (envFailingAfter 1).stdoutFails i = decide (1 ≤ i)) ∧
    (exportCharges (envFailingAfter 1) true
      [sampleCharge, sampleChargeNoCard, sampleCharge]).exit = .returnErr ∧
    (exportCharges (envFailingAfter 1) true
      [sampleCharge, sampleChargeNoCard, sampleCharge]).out
        = encodeRecords (header :: [sampleRow, sampleRowNoCard, sampleRow].take 1) ∧
    (exportCharges (envFailingAfter 1) true
      [sampleCharge, sampleChargeNoCard, sampleCharge]).rows ≤ 1 + 2 :=
  ⟨by decide, by decide, by decide, fun _ => rfl,
    exportCharges_error_at_later_row (envFailingAfter 1)
      [sampleCharge, sampleChargeNoCard, sampleCharge] 1
      [sampleRow, sampleRowNoCard, sampleRow] (by decide) (by decide) (by decide)
      (fun _ => rfl)⟩

set_option maxRecDepth 100000 in
/-- C3 (the code at the failing input): two records, on a stream that accepts the writes
until one row has been written and flushed and rejects every write from then on (`N = 1`).
The write of the second row fails inside `w.Flush()`, whose error is never read:
`exportCharges` hands both rows to the writer and returns nil, not an error; the stream
holds the header and the first row, and the second row is left in the buffer and lost. -/
theorem C3_last_flush_error_is_lost :
    1 ≤ [sampleCharge, sampleChargeNoCard].length ∧
    (∀ i, (envFailingAfter 1).stdoutFails i = decide (1 ≤ i)) ∧
    chargeRows (envFailingAfter 1) 0 [sampleCharge, sampleChargeNoCard]
      = some [sampleRow, sampleRowNoCard] ∧
    (exportCharges (envFailingAfter 1) true [sampleCharge, sampleChargeNoCard]).exit
      = .returnNil ∧
    (exportCharges (envFailingAfter 1) true [sampleCharge, sampleChargeNoCard]).exit
      ≠ .returnErr ∧
    (exportCharges (envFailingAfter 1) true [sampleCharge, sampleChargeNoCard]).rows = 2 ∧
    (exportCharges (envFailingAfter 1) true [sampleCharge, sampleChargeNoCard]).out
      = encodeRecords [header, sampleRow] ∧
    (exportCharges (envFailingAfter 1) true [sampleCharge, sampleChargeNoCard]).buffered
      = encodeRecord sampleRowNoCard :=
  ⟨by decide, fun _ => rfl, by decide, by decide, by decide, by decide, by decide, by decide⟩

set_option maxRecDepth 100000 in
/-- A stream that fails from the start receives nothing, not even the header. -/
theorem exportCharges_failing_from_start :
    (exportCharges (envFailingAfter 0) true
      [sampleCharge, sampleChargeNoCard, sampleCharge]).exit = .returnErr ∧
    (exportCharges (envFailingAfter 0) true
      [sampleCharge, sampleChargeNoCard, sampleCharge]).out = [] := by
  decide

/-! ## The filters of `fetchCharges` -/

theorem fmtDigits_digits (fuel : Nat) :
    ∀ (u : Nat) (acc : GoString), u < 10 ^ (fuel + 1) → (∀ c ∈ acc, 48 ≤ c ∧ c ≤ 57) →
      ∀ c ∈ fmtDigits (fuel + 1) u acc, 48 ≤ c ∧ c ≤ 57 := by
  induction fuel with
  | zero =>
    intro u acc hu hacc c hc
    have h10 : ¬ u ≥ 10 := by simpa using hu
    rw [fmtDigits, if_neg h10] at hc
    rcases List.mem_cons.mp hc with rfl | hc
    · omega
    · exact hacc c hc
  | succ fuel ih =>
    intro u acc hu hacc c hc
    rw [fmtDigits] at hc
    split at hc
    · refine ih (u / 10) _ ?_ ?_ c hc
      · rw [pow_succ] at hu
        omega
      · intro d hd
        rcases List.mem_cons.mp hd with rfl | hd
        · omega
        · exact hacc d hd
    · rcases List.mem_cons.mp hc with rfl | hc
      · omega
      · exact hacc c hc

theorem fmtDigits_ne_nil (fuel u : Nat) (acc : GoString) : fmtDigits (fuel + 1) u acc ≠ [] := by
  induction fuel generalizing u acc with
  | zero => rw [fmtDigits]; split <;> simp [fmtDigits]
  | succ fuel ih =>
    rw [fmtDigits]
    split
    · exact ih _ _
    · simp

theorem fmtDigits_value (fuel : Nat) :
    ∀ (u : Nat) (acc : GoString), u < 10 ^ (fuel + 1) →
      (fmtDigits (fuel + 1) u acc).foldl (fun (a : Int) (c : Nat) => a * 10 + ((c : Int) - 48)) 0
        = acc.foldl (fun (a : Int) (c : Nat) => a * 10 + ((c : Int) - 48)) (u : Int) := by
  induction fuel with
  | zero =>
    intro u acc hu
    have h10 : ¬ u ≥ 10 := by simpa using hu
    rw [fmtDigits, if_neg h10, List.foldl_cons]
    congr 1
    omega
  | succ fuel ih =>
    intro u acc hu
    rw [fmtDigits]
    split
    · rw [ih (u / 10) _ (by rw [pow_succ] at hu; omega), List.foldl_cons]
      congr 1
      omega
    · rw [List.foldl_cons]
      congr 1
      omega

theorem parseDigits_fmtDigits (u : Nat) (hu : u < 10 ^ 20) :
    parseDigits (fmtDigits 20 u []) = some (u : Int) := by
  have hd := fmtDigits_digits 19 u [] hu (by simp)
  have hv := fmtDigits_value 19 u [] hu
  have hne := fmtDigits_ne_nil 19 u []
  have hany : (fmtDigits 20 u []).any (fun c => c < 48 || c > 57) = false := by
    rw [List.any_eq_false]
    intro c hc
    have := hd c hc
    simp
    omega
  simp only [parseDigits, hne, hany, false_or, Bool.false_eq_true, if_false]
  rw [hv]
  rfl

/-- Go's `strconv.FormatInt` gives a text the API reads back as the same integer. -/
theorem parseDecimal_FormatInt (x : Int) (h1 : -(10 ^ 20) < x) (h2 : x < 10 ^ 20) :
    parseDecimal (FormatInt x) = some x := by
  have hu : x.natAbs < 10 ^ 20 := by omega
  have hp := parseDigits_fmtDigits x.natAbs hu
  by_cases hneg : x < 0
  · simp only [FormatInt, hneg, if_true, parseDecimal, hp, Option.map_some']
    congr 1
    omega
  · have hd := fmtDigits_digits 19 x.natAbs [] hu (by simp)
    have hne := fmtDigits_ne_nil 19 x.natAbs []
    simp only [FormatInt, hneg, if_false]
    rcases hl : fmtDigits 20 x.natAbs [] with _ | ⟨d, ds⟩
    · exact absurd hl hne
    · have hd0 := hd d (by rw [hl]; simp)
      have h45 : d ≠ 45 := by omega
      rw [hl] at hp
      unfold parseDecimal
      split
      · rename_i heq
        simp only [List.cons.injEq] at heq
        exact absurd heq.1 h45
      · rw [hp]
        congr 1
        omega

theorem str_ops :
    str "created" = str "created" ∧ str "gt" ≠ str "gte" ∧ str "lt" ≠ str "gt" ∧
      str "lt" ≠ str "gte" ∧ str "lt" ≠ str "lte" := by
  decide

/-- What the two filters of `fetchCharges` select: the creation times strictly between
`Begin.Unix()` and `End.Unix()`, for bounds in the range of an `int64`. -/
theorem fetchCharges_selects_open_interval (dr : DateRange) (t : Int)
    (hb1 : -(10 ^ 20) < dr.Begin.Unix) (hb2 : dr.Begin.Unix < 10 ^ 20)
    (he1 : -(10 ^ 20) < dr.End.Unix) (he2 : dr.End.Unix < 10 ^ 20) :
    selected dr t = decide (dr.Begin.Unix < t ∧ t < dr.End.Unix) := by
  obtain ⟨s1, s2, s3, s4, s5⟩ := str_ops
  have p1 := parseDecimal_FormatInt dr.Begin.Unix hb1 hb2
  have p2 := parseDecimal_FormatInt dr.End.Unix he1 he2
  simp only [selected, fetchChargesFilters, DateRange.ToUnixTS, List.all_cons, List.all_nil,
    Filter.admits, p1, p2, if_true, s3, s4, if_false, Bool.and_true]
  by_cases h1 : dr.Begin.Unix < t <;> by_cases h2 : t < dr.End.Unix <;> simp [h1, h2]

theorem fetchCharges_selects_open_interval_witness :
    selected ⟨⟨1483228800⟩, ⟨1485907200⟩⟩ 1483228801
      = decide ((1483228800 : Int) < 1483228801 ∧ (1483228801 : Int) < 1485907200) :=
  fetchCharges_selects_open_interval ⟨⟨1483228800⟩, ⟨1485907200⟩⟩ 1483228801
    (by decide) (by decide) (by decide) (by decide)

/-- C6 (the code at the failing input): for the range of `"01/2017"` the filters are
`created gt 1483228800` and `created lt 1485907200`; a charge created at `Begin.Unix()`,
the first second of January 2017, lies in the half-open interval `[Begin, End)` and does not
pass them. -/
theorem C6_charge_at_begin_not_selected :
    NewDateRange (str "01/2017") = .ok ⟨⟨1483228800⟩, ⟨1485907200⟩⟩ ∧
    fetchChargesFilters ⟨⟨1483228800⟩, ⟨1485907200⟩⟩
      = [⟨str "created", str "gt", str "1483228800"⟩,
          ⟨str "created", str "lt", str "1485907200"⟩] ∧
    ((⟨⟨1483228800⟩, ⟨1485907200⟩⟩ : DateRange).Begin.Unix ≤ 1483228800 ∧
      1483228800 < (⟨⟨1483228800⟩, ⟨1485907200⟩⟩ : DateRange).End.Unix) ∧
    selected ⟨⟨1483228800⟩, ⟨1485907200⟩⟩ 1483228800 = false := by
  decide

end ExportPayment
